import Mathlib

/-!
Verification development for the gitcontext repository: a shallow embedding
of the context version-graph engine (Index, Commit Store, merge/squash
pipeline, analysis providers) together with theorems settling the spec's
claims about it.

Conventions of the embedding:
* Python dicts become insertion-ordered association lists (`Dict`).
* `datetime.datetime` becomes the `DateTime` structure; `isoformat`,
  `str()` and the `strftime` patterns used by the code are embedded as
  functions on it.
* JSON-representable values become the `Json` inductive.  A raw Python
  `datetime` object sitting inside a dict (which `json.dump` cannot
  serialize) is represented by the `Json.jdatetime` constructor;
  `Json.serializable` is the predicate "json.dump succeeds on this value".
* Code that raises becomes `Except GCError`.
-/

namespace GitContextSpec

/-- First binding for a key in an association list. -/
def alookup {κ α : Type} [BEq κ] (l : List (κ × α)) (k : κ) : Option α :=
  (l.find? (fun kv => kv.1 == k)).map (fun kv => kv.2)

/-- Update-or-append for an association list: the semantics of Python
dict assignment `d[k] = v` (existing keys keep their position, new keys
go at the end) and likewise of overwriting a file at a path. -/
def aput {κ α : Type} [BEq κ] (l : List (κ × α)) (k : κ) (v : α) :
    List (κ × α) :=
  if (l.find? (fun kv => kv.1 == k)).isSome then
    l.map (fun kv => if kv.1 == k then (k, v) else kv)
  else
    l ++ [(k, v)]

/-- Insertion-ordered string-keyed dictionary, the model of a Python dict. -/
structure Dict (α : Type) where
  entries : List (String × α)
deriving Repr, DecidableEq

namespace Dict

def empty {α} : Dict α := ⟨[]⟩

/-- Lookup a key, returning the first (hence unique, for dicts built by
`insert`) binding. -/
def lookup {α} (d : Dict α) (k : String) : Option α :=
  alookup d.entries k

def hasKey {α} (d : Dict α) (k : String) : Bool :=
  (d.lookup k).isSome

/-- Python dict assignment `d[k] = v`: update in place if the key exists
(keeping its position), otherwise append at the end. -/
def insert {α} (d : Dict α) (k : String) (v : α) : Dict α :=
  ⟨aput d.entries k v⟩

/-- Python `del d[k]`. -/
def erase {α} (d : Dict α) (k : String) : Dict α :=
  ⟨d.entries.filter (fun kv => kv.1 != k)⟩

def keys {α} (d : Dict α) : List String :=
  d.entries.map (fun kv => kv.1)

/-- Python dict equality `d1 == d2`: the same key-to-value mapping,
independent of insertion order. -/
def pyEq {α} [BEq α] (d1 d2 : Dict α) : Bool :=
  d1.entries.all (fun kv => d2.lookup kv.1 == some kv.2) &&
  d2.entries.all (fun kv => d1.lookup kv.1 == some kv.2)

end Dict

/-- Naive (timezone-free) `datetime.datetime`, the only kind the code
constructs (`datetime.now()` / `fromisoformat` of its own output). -/
structure DateTime where
  year : Nat
  month : Nat
  day : Nat
  hour : Nat
  minute : Nat
  second : Nat
  microsecond : Nat
deriving Repr, DecidableEq

/-- Zero-padded fixed-width decimal rendering, Python's format spec
`0Nd` (for the in-range values the code produces). -/
def padNum (w n : Nat) : String :=
  let s := toString n
  String.mk (List.replicate (w - s.length) '0' ++ s.data)

namespace DateTime

/-- Python `datetime.isoformat()`: `YYYY-MM-DDTHH:MM:SS` with a
`.ffffff` suffix present exactly when `microsecond` is nonzero. -/
def isoformat (d : DateTime) : String :=
  padNum 4 d.year ++ "-" ++ padNum 2 d.month ++ "-" ++ padNum 2 d.day ++ "T" ++
  padNum 2 d.hour ++ ":" ++ padNum 2 d.minute ++ ":" ++ padNum 2 d.second ++
  (if d.microsecond == 0 then "" else "." ++ padNum 6 d.microsecond)

/-- Python `str(datetime)`: isoformat with a space separator. -/
def pystr (d : DateTime) : String :=
  padNum 4 d.year ++ "-" ++ padNum 2 d.month ++ "-" ++ padNum 2 d.day ++ " " ++
  padNum 2 d.hour ++ ":" ++ padNum 2 d.minute ++ ":" ++ padNum 2 d.second ++
  (if d.microsecond == 0 then "" else "." ++ padNum 6 d.microsecond)

/-- Python `strftime('%Y%m%d_%H%M%S')`, used for archive directory names. -/
def compactStamp (d : DateTime) : String :=
  padNum 4 d.year ++ padNum 2 d.month ++ padNum 2 d.day ++ "_" ++
  padNum 2 d.hour ++ padNum 2 d.minute ++ padNum 2 d.second

/-- Python `strftime('%Y-%m-%d %H:%M')`, used in prompts and markdown. -/
def ymdhm (d : DateTime) : String :=
  padNum 4 d.year ++ "-" ++ padNum 2 d.month ++ "-" ++ padNum 2 d.day ++ " " ++
  padNum 2 d.hour ++ ":" ++ padNum 2 d.minute

end DateTime

/-- Parse one decimal digit. -/
def parseDigit (c : Char) : Option Nat :=
  if '0' ≤ c && c ≤ '9' then some (c.toNat - '0'.toNat) else none

/-- Parse exactly `w` decimal digits from the front of a character list. -/
def parseFixed : Nat → List Char → Option (Nat × List Char)
  | 0, cs => some (0, cs)
  | _ + 1, [] => none
  | w + 1, c :: cs => do
    let d ← parseDigit c
    let (rest, cs') ← parseFixed w cs
    pure (d * 10 ^ w + rest, cs')

/-- Model of `datetime.fromisoformat` restricted to the shapes that
`DateTime.isoformat` emits: `YYYY-MM-DD`, optionally followed by
`THH:MM:SS` and optionally `.ffffff`. -/
def DateTime.fromisoformat (s : String) : Option DateTime := do
  let (y, r1) ← parseFixed 4 s.data
  match r1 with
  | '-' :: r2 => do
    let (mo, r3) ← parseFixed 2 r2
    match r3 with
    | '-' :: r4 => do
      let (d, r5) ← parseFixed 2 r4
      match r5 with
      | [] => pure ⟨y, mo, d, 0, 0, 0, 0⟩
      | 'T' :: r6 => do
        let (h, r7) ← parseFixed 2 r6
        match r7 with
        | ':' :: r8 => do
          let (mi, r9) ← parseFixed 2 r8
          match r9 with
          | ':' :: r10 => do
            let (sec, r11) ← parseFixed 2 r10
            match r11 with
            | [] => pure ⟨y, mo, d, h, mi, sec, 0⟩
            | '.' :: r12 => do
              let (us, r13) ← parseFixed 6 r12
              match r13 with
              | [] => pure ⟨y, mo, d, h, mi, sec, us⟩
              | _ => none
            | _ => none
          | _ => none
        | _ => none
      | _ => none
    | _ => none
  | _ => none

/-- JSON-representable Python value.  `jdatetime` stands for a raw
`datetime` object inside a dict: pydantic's `model_dump()` produces such
values, and `json.dump` raises `TypeError` on them. -/
inductive Json where
  | jnull : Json
  | jbool : Bool → Json
  | jnum : Int → Json
  | jstr : String → Json
  | jarr : List Json → Json
  | jobj : List (String × Json) → Json
  | jdatetime : DateTime → Json

namespace Json

/-- Lookup a key of a JSON object (for non-objects: no binding). -/
def getKey : Json → String → Option Json
  | jobj fields, k => (fields.find? (fun kv => kv.1 == k)).map (fun kv => kv.2)
  | _, _ => none

mutual
/-- Does `json.dump` succeed on this value?  It fails (with `TypeError`)
exactly when a raw `datetime` object occurs somewhere inside. -/
def serializable : Json → Bool
  | jnull => true
  | jbool _ => true
  | jnum _ => true
  | jstr _ => true
  | jarr xs => serializableList xs
  | jobj fields => serializableFields fields
  | jdatetime _ => false

def serializableList : List Json → Bool
  | [] => true
  | x :: xs => serializable x && serializableList xs

def serializableFields : List (String × Json) → Bool
  | [] => true
  | kv :: kvs => serializable kv.2 && serializableFields kvs
end

end Json

/-- Escape one character the way `json.dumps` (with `ensure_ascii=False`)
does inside a string literal. -/
def jsonEscapeChar (c : Char) : String :=
  if c = '"' then "\\\""
  else if c = '\\' then "\\\\"
  else if c = '\n' then "\\n"
  else if c = '\t' then "\\t"
  else if c = '\r' then "\\r"
  else if c = '\x08' then "\\b"
  else if c = '\x0c' then "\\f"
  else if c.toNat < 32 then "\\u00" ++ padNum 2 c.toNat
  else String.mk [c]

/-- Render a string as a JSON string literal. -/
def jsonQuote (s : String) : String :=
  "\"" ++ String.join (s.data.map jsonEscapeChar) ++ "\""

mutual
/-- Model of `json.dumps(v, ensure_ascii=False)` with the default
separators `", "` and `": "` (no indent).  The `jdatetime` case is the
point where the real `json.dump` raises `TypeError`; callers in this
development either guard with `Json.serializable` first or only dump
datetime-free values, so the branch is unreachable for them. -/
def jsonDumps : Json → String
  | .jnull => "null"
  | .jbool true => "true"
  | .jbool false => "false"
  | .jnum n => toString n
  | .jstr s => jsonQuote s
  | .jarr [] => "[]"
  | .jarr (x :: xs) => "[" ++ jsonDumps x ++ jsonDumpsListTail xs ++ "]"
  | .jobj [] => "\x7b\x7d"
  | .jobj (kv :: kvs) =>
      "\x7b" ++ jsonQuote kv.1 ++ ": " ++ jsonDumps kv.2 ++
        jsonDumpsFieldsTail kvs ++ "\x7d"
  | .jdatetime _ => ""

def jsonDumpsListTail : List Json → String
  | [] => ""
  | x :: xs => ", " ++ jsonDumps x ++ jsonDumpsListTail xs

def jsonDumpsFieldsTail : List (String × Json) → String
  | [] => ""
  | kv :: kvs => ", " ++ jsonQuote kv.1 ++ ": " ++ jsonDumps kv.2 ++ jsonDumpsFieldsTail kvs
end

mutual
/-- Model of `json.dumps(v, indent=2, ensure_ascii=False)` at nesting
depth `lvl`: each element of a non-empty container goes on its own line,
indented two spaces deeper; the item separator becomes `",\n"` and the
key separator stays `": "`. -/
def jsonDumpsIndent (lvl : Nat) : Json → String
  | .jnull => "null"
  | .jbool true => "true"
  | .jbool false => "false"
  | .jnum n => toString n
  | .jstr s => jsonQuote s
  | .jarr [] => "[]"
  | .jarr (x :: xs) =>
      let pad := String.mk (List.replicate (2 * (lvl + 1)) ' ')
      "[\n" ++ pad ++ jsonDumpsIndent (lvl + 1) x ++
        jsonDumpsIndentListTail (lvl + 1) xs ++
        "\n" ++ String.mk (List.replicate (2 * lvl) ' ') ++ "]"
  | .jobj [] => "\x7b\x7d"
  | .jobj (kv :: kvs) =>
      let pad := String.mk (List.replicate (2 * (lvl + 1)) ' ')
      "\x7b\n" ++ pad ++ jsonQuote kv.1 ++ ": " ++ jsonDumpsIndent (lvl + 1) kv.2 ++
        jsonDumpsIndentFieldsTail (lvl + 1) kvs ++
        "\n" ++ String.mk (List.replicate (2 * lvl) ' ') ++ "\x7d"
  | .jdatetime _ => ""

def jsonDumpsIndentListTail (lvl : Nat) : List Json → String
  | [] => ""
  | x :: xs =>
      ",\n" ++ String.mk (List.replicate (2 * lvl) ' ') ++
        jsonDumpsIndent lvl x ++ jsonDumpsIndentListTail lvl xs

def jsonDumpsIndentFieldsTail (lvl : Nat) : List (String × Json) → String
  | [] => ""
  | kv :: kvs =>
      ",\n" ++ String.mk (List.replicate (2 * lvl) ' ') ++
        jsonQuote kv.1 ++ ": " ++ jsonDumpsIndent lvl kv.2 ++
        jsonDumpsIndentFieldsTail lvl kvs
end

/-- Characters `json.loads` treats as insignificant whitespace. -/
def jsonWs (c : Char) : Bool :=
  c = ' ' || c = '\n' || c = '\t' || c = '\r'

def skipJsonWs : List Char → List Char
  | [] => []
  | c :: cs => if jsonWs c then skipJsonWs cs else c :: cs

/-- Parse the body of a JSON string literal after the opening quote. -/
def parseJsonString : List Char → Option (String × List Char)
  | [] => none
  | '"' :: cs => some ("", cs)
  | '\\' :: e :: cs => do
    let c ←
      if e = '"' then some '"'
      else if e = '\\' then some '\\'
      else if e = '/' then some '/'
      else if e = 'n' then some '\n'
      else if e = 't' then some '\t'
      else if e = 'r' then some '\r'
      else if e = 'b' then some '\x08'
      else if e = 'f' then some '\x0c'
      else none
    let (rest, cs') ← parseJsonString cs
    pure (String.mk [c] ++ rest, cs')
  | '\\' :: [] => none
  | c :: cs => do
    let (rest, cs') ← parseJsonString cs
    pure (String.mk [c] ++ rest, cs')

/-- Parse a run of decimal digits. -/
def parseJsonDigits : List Char → Nat → Option (Nat × List Char)
  | [], acc => some (acc, [])
  | c :: cs, acc =>
    match parseDigit c with
    | some d => parseJsonDigits cs (acc * 10 + d)
    | none => some (acc, c :: cs)

mutual
/-- Fuel-indexed model of `json.loads` (integer numerals only — the
documents this program reads and writes carry no floats). -/
def parseJsonValue : Nat → List Char → Option (Json × List Char)
  | 0, _ => none
  | fuel + 1, cs =>
    match skipJsonWs cs with
    | 'n' :: 'u' :: 'l' :: 'l' :: rest => some (.jnull, rest)
    | 't' :: 'r' :: 'u' :: 'e' :: rest => some (.jbool true, rest)
    | 'f' :: 'a' :: 'l' :: 's' :: 'e' :: rest => some (.jbool false, rest)
    | '"' :: rest => do
      let (s, rest') ← parseJsonString rest
      pure (.jstr s, rest')
    | '-' :: c :: rest => do
      let d ← parseDigit c
      let (n, rest') ← parseJsonDigits rest d
      pure (.jnum (-(n : Int)), rest')
    | '[' :: rest =>
      (match skipJsonWs rest with
      | ']' :: rest' => some (.jarr [], rest')
      | rest2 => do
        let (v, rest3) ← parseJsonValue fuel rest2
        let (vs, rest4) ← parseJsonArrayTail fuel rest3
        pure (.jarr (v :: vs), rest4))
    | '\x7b' :: rest =>
      (match skipJsonWs rest with
      | '\x7d' :: rest' => some (.jobj [], rest')
      | rest2 => do
        let (k, v, rest3) ← parseJsonMember fuel rest2
        let (kvs, rest4) ← parseJsonObjectTail fuel rest3
        pure (.jobj ((k, v) :: kvs), rest4))
    | c :: rest => do
      let d ← parseDigit c
      let (n, rest') ← parseJsonDigits rest d
      pure (.jnum (n : Int), rest')
    | [] => none

/-- Elements of an array after the first, up to the closing bracket. -/
def parseJsonArrayTail : Nat → List Char → Option (List Json × List Char)
  | 0, _ => none
  | fuel + 1, cs =>
    match skipJsonWs cs with
    | ']' :: rest => some ([], rest)
    | ',' :: rest => do
      let (v, rest2) ← parseJsonValue fuel rest
      let (vs, rest3) ← parseJsonArrayTail fuel rest2
      pure (v :: vs, rest3)
    | _ => none

/-- One `"key": value` member of an object. -/
def parseJsonMember : Nat → List Char → Option (String × Json × List Char)
  | 0, _ => none
  | fuel + 1, cs =>
    match skipJsonWs cs with
    | '"' :: rest => do
      let (k, rest2) ← parseJsonString rest
      match skipJsonWs rest2 with
      | ':' :: rest3 => do
        let (v, rest4) ← parseJsonValue fuel rest3
        pure (k, v, rest4)
      | _ => none
    | _ => none

/-- Members of an object after the first, up to the closing brace. -/
def parseJsonObjectTail : Nat → List Char → Option (List (String × Json) × List Char)
  | 0, _ => none
  | fuel + 1, cs =>
    match skipJsonWs cs with
    | '\x7d' :: rest => some ([], rest)
    | ',' :: rest => do
      let (k, v, rest2) ← parseJsonMember fuel rest
      let (kvs, rest3) ← parseJsonObjectTail fuel rest2
      pure ((k, v) :: kvs, rest3)
    | _ => none
end

/-- Model of `json.loads`: parse, requiring only whitespace after the
value.  The fuel (string length plus one) dominates the nesting depth of
any parse that can consume the input. -/
def jsonLoads (s : String) : Option Json :=
  match parseJsonValue (s.length + 1) s.data with
  | some (v, rest) => if (skipJsonWs rest).isEmpty then some v else none
  | none => none

/-- An alternative approach that was considered but rejected
(`models/types.py`, class `Alternative`). -/
structure Alternative where
  what : String
  why_rejected : String
deriving Repr, DecidableEq

/-- Method `Alternative.to_dict`. -/
def Alternative.to_dict (a : Alternative) : Json :=
  .jobj [("what", .jstr a.what), ("why_rejected", .jstr a.why_rejected)]

/-- One OTA reasoning-step record (`models/ota.py`, class `OTALog`).
The pydantic validators require `thought`, `action` and `result` to be
non-empty (`min_length=1`). -/
structure OTALog where
  id : String
  thought : String
  action : String
  result : String
  timestamp : DateTime
  files_affected : List String
  metadata : List (String × Json)

/-- Method `OTALog.to_dict`, which is pydantic's `model_dump()`: field
values are kept as Python objects, so the timestamp comes out as a raw
`datetime` (`Json.jdatetime`), not as an ISO string. -/
def OTALog.to_dict (log : OTALog) : Json :=
  .jobj [("id", .jstr log.id),
         ("thought", .jstr log.thought),
         ("action", .jstr log.action),
         ("result", .jstr log.result),
         ("timestamp", .jdatetime log.timestamp),
         ("files_affected", .jarr (log.files_affected.map .jstr)),
         ("metadata", .jobj log.metadata)]

/-- Read a JSON value as a list of strings. -/
def asStrList : List Json → Option (List String)
  | [] => some []
  | .jstr s :: rest => do pure (s :: (← asStrList rest))
  | _ => none

/-- Read a JSON object all of whose values are strings. -/
def asStrFields : List (String × Json) → Option (List (String × String))
  | [] => some []
  | (k, .jstr v) :: rest => do pure ((k, v) :: (← asStrFields rest))
  | _ => none

/-- Method `OTALog.from_dict`: converts a string timestamp with
`fromisoformat`, then validates via the pydantic constructor.  The `id`
and `timestamp` keys are required to be present here (the code would
otherwise draw fresh random/now defaults; every document this program
writes carries both).  The `files_affected` validator splits a plain
string on commas and strips each piece. -/
def OTALog.from_dict (data : Json) : Option OTALog := do
  let id ← match data.getKey "id" with | some (.jstr s) => some s | _ => none
  let thought ← match data.getKey "thought" with
    | some (.jstr s) => if s = "" then none else some s
    | _ => none
  let action ← match data.getKey "action" with
    | some (.jstr s) => if s = "" then none else some s
    | _ => none
  let result ← match data.getKey "result" with
    | some (.jstr s) => if s = "" then none else some s
    | _ => none
  let timestamp ← match data.getKey "timestamp" with
    | some (.jstr s) => DateTime.fromisoformat s
    | some (.jdatetime d) => some d
    | _ => none
  let files_affected ← match data.getKey "files_affected" with
    | none => some []
    | some (.jarr xs) => asStrList xs
    | some (.jstr s) => some ((s.splitOn (",")).map String.trim)
    | _ => none
  let metadata ← match data.getKey "metadata" with
    | none => some []
    | some (.jobj fields) => some fields
    | _ => none
  pure ⟨id, thought, action, result, timestamp, files_affected, metadata⟩

/-- A commit in the context history (`models/types.py`, class
`ContextCommit`). -/
structure ContextCommit where
  id : String
  message : String
  timestamp : DateTime
  parent : Option String
  decisions : List String
  alternatives : List Alternative
  ota_logs : List OTALog
  files_snapshot : Dict String
  metadata : List (String × Json)

/-- Method `ContextCommit.to_dict`: the commit's own timestamp is
rendered with `isoformat`, the nested OTA logs go through
`OTALog.to_dict` (hence keep raw datetimes). -/
def ContextCommit.to_dict (c : ContextCommit) : Json :=
  .jobj [("id", .jstr c.id),
         ("message", .jstr c.message),
         ("timestamp", .jstr c.timestamp.isoformat),
         ("parent", match c.parent with | some p => .jstr p | none => .jnull),
         ("decisions", .jarr (c.decisions.map .jstr)),
         ("alternatives", .jarr (c.alternatives.map Alternative.to_dict)),
         ("ota_logs", .jarr (c.ota_logs.map OTALog.to_dict)),
         ("files_snapshot", .jobj (c.files_snapshot.entries.map (fun kv => (kv.1, .jstr kv.2)))),
         ("metadata", .jobj c.metadata)]

/-- Read a JSON array as a list of `Alternative` records
(`Alternative(**alt)` on each dict element). -/
def asAlternatives : List Json → Option (List Alternative)
  | [] => some []
  | x :: rest => do
    let what ← match x.getKey "what" with | some (.jstr s) => some s | _ => none
    let why ← match x.getKey "why_rejected" with | some (.jstr s) => some s | _ => none
    pure (⟨what, why⟩ :: (← asAlternatives rest))

/-- Read a JSON array as a list of OTA logs via `OTALog.from_dict`. -/
def asOtaLogs : List Json → Option (List OTALog)
  | [] => some []
  | x :: rest => do pure ((← OTALog.from_dict x) :: (← asOtaLogs rest))

/-- Method `ContextCommit.from_dict`: string timestamps are parsed with
`fromisoformat`; `alternatives` and `ota_logs` entries are rebuilt from
their dicts; absent optional fields fall back to the pydantic defaults
(`parent = None`, empty lists/dicts).  `id`, `message` and `timestamp`
must be present. -/
def ContextCommit.from_dict (data : Json) : Option ContextCommit := do
  let id ← match data.getKey "id" with | some (.jstr s) => some s | _ => none
  let message ← match data.getKey "message" with | some (.jstr s) => some s | _ => none
  let timestamp ← match data.getKey "timestamp" with
    | some (.jstr s) => DateTime.fromisoformat s
    | some (.jdatetime d) => some d
    | _ => none
  let parent ← match data.getKey "parent" with
    | none => some Option.none
    | some .jnull => some Option.none
    | some (.jstr s) => some (Option.some s)
    | _ => none
  let decisions ← match data.getKey "decisions" with
    | none => some []
    | some (.jarr xs) => asStrList xs
    | _ => none
  let alternatives ← match data.getKey "alternatives" with
    | none => some []
    | some (.jarr xs) => asAlternatives xs
    | _ => none
  let ota_logs ← match data.getKey "ota_logs" with
    | none => some []
    | some (.jarr xs) => asOtaLogs xs
    | _ => none
  let files_snapshot ← match data.getKey "files_snapshot" with
    | none => some Dict.empty
    | some (.jobj fields) => (asStrFields fields).map Dict.mk
    | _ => none
  let metadata ← match data.getKey "metadata" with
    | none => some []
    | some (.jobj fields) => some fields
    | _ => none
  pure ⟨id, message, timestamp, parent, decisions, alternatives, ota_logs,
        files_snapshot, metadata⟩

/-- Result of squashing a branch's history (`models/types.py`, class
`SquashResult`).  `merged_at` carries the pydantic
`default_factory=datetime.now` value supplied at construction. -/
structure SquashResult where
  decisions : List String
  rejected_alternatives : List Alternative
  key_insights : List String
  architecture_summary : String
  ota_count : Nat
  original_commits : Nat
  branch_name : String
  merged_at : DateTime

/-- Method `SquashResult.to_dict`. -/
def SquashResult.to_dict (r : SquashResult) : Json :=
  .jobj [("decisions", .jarr (r.decisions.map .jstr)),
         ("rejected_alternatives", .jarr (r.rejected_alternatives.map Alternative.to_dict)),
         ("key_insights", .jarr (r.key_insights.map .jstr)),
         ("architecture_summary", .jstr r.architecture_summary),
         ("ota_count", .jnum r.ota_count),
         ("original_commits", .jnum r.original_commits),
         ("branch_name", .jstr r.branch_name),
         ("merged_at", .jstr r.merged_at.isoformat)]

/-- Method `SquashResult.to_markdown`: the human-readable archive
summary. -/
def SquashResult.to_markdown (r : SquashResult) : String :=
  let lines : List String :=
    ["# Squash Merge: " ++ r.branch_name,
     "",
     "Merged: " ++ r.merged_at.ymdhm,
     "Original commits: " ++ toString r.original_commits ++ " → summarized",
     "",
     "## 📊 Final Decisions"] ++
    r.decisions.map (fun d => "- " ++ d) ++
    ["", "## ❌ Rejected Alternatives"] ++
    r.rejected_alternatives.map (fun alt => "- **" ++ alt.what ++ "**: " ++ alt.why_rejected) ++
    ["", "## 💡 Key Insights"] ++
    r.key_insights.map (fun insight => "- " ++ insight) ++
    ["", "## 🏗️ Architecture Summary", r.architecture_summary]
  String.intercalate "\n" lines

/-- Errors raised by the program.  Python raises exception classes with
message strings; the constructors record which raise site fired:
`StorageError` messages from `storage/index.py` become `branchNotFound`
("Branch '<name>' not found"), `sourceBranchNotFound` ("Source branch
'<name>' not found"), `branchAlreadyExists`, `protectedBranch` ("Cannot
delete main branch") and `activeBranch` ("Cannot delete current
branch"); `BranchError`/`MergeError` from `core/context.py` become
`invalidBranchName`, `selfMerge` and `mergeBranchNotFound`; a pydantic
`ValidationError` while re-reading a commit document becomes
`validationError`; the `TypeError` `json.dump` raises on a raw datetime
becomes `serializationTypeError`; an exception out of a backend call
becomes `llmApiError`. -/
inductive GCError where
  | branchNotFound : String → GCError
  | sourceBranchNotFound : String → GCError
  | branchAlreadyExists : String → GCError
  | protectedBranch : GCError
  | activeBranch : GCError
  | invalidBranchName : String → GCError
  | selfMerge : GCError
  | mergeBranchNotFound : String → GCError
  | validationError : GCError
  | serializationTypeError : GCError
  | llmApiError : String → GCError
deriving Repr, DecidableEq

/-- Per-branch record of the Index document (`storage/index.py`).  The
`created`/`last_modified` fields hold `datetime.now().isoformat()`
strings. -/
structure BranchData where
  created : String
  last_modified : String
  parent : Option String
  current_commit : Option String
  commits : List String
  metadata : List (String × Json)

/-- The Index document (`storage/index.py`, managed by `IndexManager`
as a load → mutate in memory → save cycle; the embedding works on the
in-memory value, persistence of the YAML document being the identity on
it under the single-process assumption). -/
structure Index where
  version : String
  created : String
  last_modified : String
  current_branch : String
  branches : Dict BranchData

namespace Index

/-- Method `IndexManager._create_default`. -/
def createDefault (now : DateTime) : Index :=
  { version := "1.0"
    created := now.isoformat
    last_modified := now.isoformat
    current_branch := "main"
    branches := Dict.empty.insert "main"
      { created := now.isoformat
        last_modified := now.isoformat
        parent := none
        current_commit := none
        commits := []
        metadata := [] } }

/-- Method `IndexManager.get_current_branch`. -/
def get_current_branch (idx : Index) : String :=
  idx.current_branch

/-- Method `IndexManager.set_current_branch`. -/
def set_current_branch (idx : Index) (branch : String) (now : DateTime) :
    Except GCError Index :=
  if idx.branches.hasKey branch then
    .ok { idx with current_branch := branch, last_modified := now.isoformat }
  else
    .error (.branchNotFound branch)

/-- Method `IndexManager.get_branch`. -/
def get_branch (idx : Index) (name : String) : Option BranchData :=
  idx.branches.lookup name

/-- Method `IndexManager.create_branch`: copies the source's commit list
and head by value into the new branch record. -/
def create_branch (idx : Index) (name : String) (from_branch : String)
    (now : DateTime) : Except GCError Index :=
  if idx.branches.hasKey name then
    .error (.branchAlreadyExists name)
  else
    match idx.branches.lookup from_branch with
    | none => .error (.sourceBranchNotFound from_branch)
    | some source =>
      .ok { idx with
              branches := idx.branches.insert name
                { created := now.isoformat
                  last_modified := now.isoformat
                  parent := some from_branch
                  current_commit := source.current_commit
                  commits := source.commits
                  metadata := [] }
              last_modified := now.isoformat }

/-- Method `IndexManager.delete_branch`: the raise order is
not-found, then protected `main`, then the active branch. -/
def delete_branch (idx : Index) (name : String) (now : DateTime) :
    Except GCError Index :=
  if ¬ idx.branches.hasKey name then
    .error (.branchNotFound name)
  else if name = "main" then
    .error .protectedBranch
  else if name = idx.current_branch then
    .error .activeBranch
  else
    .ok { idx with branches := idx.branches.erase name
                   last_modified := now.isoformat }

/-- Method `IndexManager.add_commit`: appends the id and moves the head
pointer onto it. -/
def add_commit (idx : Index) (branch commit_id : String) (now : DateTime) :
    Except GCError Index :=
  match idx.branches.lookup branch with
  | none => .error (.branchNotFound branch)
  | some bd =>
    .ok { idx with
            branches := idx.branches.insert branch
              { bd with commits := bd.commits ++ [commit_id]
                        current_commit := some commit_id
                        last_modified := now.isoformat }
            last_modified := now.isoformat }

/-- Method `IndexManager.get_commits`. -/
def get_commits (idx : Index) (branch : String) : List String :=
  match idx.branches.lookup branch with
  | some bd => bd.commits
  | none => []

/-- Method `IndexManager.get_current_commit` (with an explicit branch
argument, as every caller in the engine supplies one). -/
def get_current_commit (idx : Index) (branch : String) : Option String :=
  match idx.branches.lookup branch with
  | some bd => bd.current_commit
  | none => none

end Index

/-- One Index mutation, for stating reachability over the four
`IndexManager` operations. -/
inductive IndexOp where
  | createBranch : String → String → IndexOp
  | deleteBranch : String → IndexOp
  | setCurrentBranch : String → IndexOp
  | addCommit : String → String → IndexOp

/-- The state an operation leaves behind: the new Index on success, the
old one when the operation raised. -/
def exceptState (idx : Index) : Except GCError Index → Index
  | .ok idx' => idx'
  | .error _ => idx

/-- Apply one operation; a raising operation leaves the persisted Index
unchanged (every raise in `storage/index.py` happens before any
mutation of the loaded document, and `save` is only reached on
success). -/
def IndexOp.apply (op : IndexOp) (now : DateTime) (idx : Index) : Index :=
  match op with
  | .createBranch name fromBranch => exceptState idx (idx.create_branch name fromBranch now)
  | .deleteBranch name => exceptState idx (idx.delete_branch name now)
  | .setCurrentBranch name => exceptState idx (idx.set_current_branch name now)
  | .addCommit branch cid => exceptState idx (idx.add_commit branch cid now)

/-- Index states reachable from a fresh default document by any
sequence of Index operations. -/
inductive ReachableIndex : Index → Prop where
  | init (now : DateTime) : ReachableIndex (Index.createDefault now)
  | step (op : IndexOp) (now : DateTime) {idx : Index} :
      ReachableIndex idx → ReachableIndex (op.apply now idx)

/-- Filesystem snapshot under the context directory, for
`FileSystemStorage` (`storage/filesystem.py`): regular files (path
segments paired with their content) and directories. -/
structure FS where
  files : List (List String × String)
  dirs : List (List String)
deriving Repr, DecidableEq

namespace FS

/-- Is there a regular file at `p` (Python `path.is_file()`)? -/
def isFile (fs : FS) (p : List String) : Bool :=
  fs.files.any (fun e => e.1 == p)

/-- Python `path.exists()`. -/
def pathExists (fs : FS) (p : List String) : Bool :=
  fs.isFile p || fs.dirs.any (fun d => d == p)

/-- A filesystem is well formed when no path is simultaneously a
regular file and a directory. -/
def WF (fs : FS) : Bool :=
  fs.files.all (fun e => !(fs.dirs.any (fun d => d == e.1)))

/-- Method `FileSystemStorage.delete`: `False` when the path does not
exist; `unlink` for a file; `shutil.rmtree` (removing the directory and
everything below it) otherwise; `True` after removal. -/
def delete (fs : FS) (p : List String) : FS × Bool :=
  if ¬ fs.pathExists p then
    (fs, false)
  else if fs.isFile p then
    ({ fs with files := fs.files.filter (fun e => !(e.1 == p)) }, true)
  else
    ({ files := fs.files.filter (fun e => !(p.isPrefixOf e.1))
       dirs := fs.dirs.filter (fun d => !(p.isPrefixOf d)) }, true)

end FS

/-- Output of `analyze_ota_logs`: the dict
`{decisions, alternatives, insights}`, with the dict-shaped
alternatives already rebuilt as `Alternative` records (the
`Alternative(**alt)` conversion the engine performs on them). -/
structure AnalysisResult where
  decisions : List String
  alternatives : List Alternative
  insights : List String
deriving Repr, DecidableEq

/-- A network backend: given the user prompt and the optional system
prompt, either the response text or the exception the call raised
(network error, auth error, timeout and so on). -/
def Backend : Type := String → Option String → Except GCError String

/-- Python `pat in s` substring test. -/
def strContainsSub (s pat : String) : Bool :=
  1 < (s.splitOn pat).length

/-- Method `LLMProvider._parse_json_response` (`llm/provider.py`):
strip a fenced block if present, `json.loads` the remainder, fall back
to the greedy `\x7b.*\x7d` regex span (first opening to last closing
brace), and return an empty dict if everything fails. -/
def parseJsonResponse (response : String) : Json :=
  let body :=
    if strContainsSub response "```json" then
      (((response.splitOn ("```json")).getD 1 "").splitOn ("```")).getD 0 ""
    else if strContainsSub response "```" then
      (response.splitOn ("```")).getD 1 ""
    else response
  match jsonLoads body.trim with
  | some j => j
  | none =>
    let fromBrace := body.data.dropWhile (fun c => c ≠ '\x7b')
    let span := (fromBrace.reverse.dropWhile (fun c => c ≠ '\x7d')).reverse
    match span with
    | '\x7b' :: _ =>
      match jsonLoads (String.mk span) with
      | some j => j
      | none => .jobj []
    | _ => .jobj []

/-- Read a key expected to hold a list of strings, Python
`d.get(key, [])` followed by the pydantic `List[str]` validation the
value later undergoes. -/
def getStrListD (j : Json) (key : String) : Option (List String) :=
  match j.getKey key with
  | none => some []
  | some (.jarr xs) => asStrList xs
  | _ => none

/-- Read a key expected to hold a list of alternative dicts, Python
`d.get(key, [])` followed by the `Alternative(**alt)` conversions. -/
def getAltsD (j : Json) (key : String) : Option (List Alternative) :=
  match j.getKey key with
  | none => some []
  | some (.jarr xs) => asAlternatives xs
  | _ => none

/-- Read a key expected to hold a string, Python `d.get(key, "")`. -/
def getStrD (j : Json) (key : String) : Option String :=
  match j.getKey key with
  | none => some ""
  | some (.jstr s) => some s
  | _ => none

/-- The system prompt every backend call passes. -/
def analystSystem : String :=
  "You are a precise code and architecture analyst. Always return valid JSON."

namespace AnthropicProvider

/-- Method `AnthropicProvider._call` (`llm/anthropic.py`): on an
exception from the API client it logs the error and then RE-RAISES it —
the error is not absorbed here, and no caller of this provider catches
it either. -/
def call (backend : Backend) (prompt : String) (system : Option String) :
    Except GCError String :=
  backend prompt system

/-- The per-log block of the `analyze_ota_logs` prompt. -/
def otaLogPromptBlock (log : OTALog) : String :=
  "Timestamp: " ++ log.timestamp.pystr ++
  "\nThought: " ++ log.thought ++
  "\nAction: " ++ log.action ++
  "\nResult: " ++ log.result ++
  "\nFiles: " ++ String.intercalate ", " log.files_affected

/-- The `analyze_ota_logs` prompt over the last 15 logs. -/
def analyzePrompt (logs : List OTALog) : String :=
  let window := logs.drop (logs.length - 15)
  let log_text := String.intercalate "\n---\n" (window.map otaLogPromptBlock)
  "You are analyzing AI development logs. Extract key information.\n\nLogs:\n" ++
  log_text ++
  "\n\nExtract and return as JSON:\n1. \"decisions\": list of key decisions made (what was decided)\n2. \"alternatives\": list of \x7b\"what\": \"...\", \"why_rejected\": \"...\"\x7d for alternatives considered but rejected\n3. \"insights\": list of important learnings or realizations\n\nReturn ONLY valid JSON, no other text."

/-- Method `AnthropicProvider.analyze_ota_logs`: empty input short
circuits to all-empty output without calling the backend; otherwise the
response is parsed and the extracted fields are read off (a
shape-mismatched response surfaces as the pydantic `validationError`
the engine raises when consuming the fields). -/
def analyze_ota_logs (backend : Backend) (logs : List OTALog) :
    Except GCError AnalysisResult :=
  if logs.isEmpty then .ok ⟨[], [], []⟩
  else do
    let response ← call backend (analyzePrompt logs) (some analystSystem)
    let result := parseJsonResponse response
    match getStrListD result "decisions", getAltsD result "alternatives",
          getStrListD result "insights" with
    | some ds, some alts, some ins => .ok ⟨ds, alts, ins⟩
    | _, _, _ => .error .validationError

/-- The `squash_branch_history` prompt. -/
def squashPrompt (branch_name : String) (commits : List ContextCommit)
    (current_context : Option Json) : String :=
  let all_decisions := (commits.map (fun c => c.decisions)).flatten
  let all_alternatives := (commits.map (fun c => c.alternatives.map Alternative.to_dict)).flatten
  let all_ota_logs := (commits.map (fun c => c.ota_logs.map OTALog.to_dict)).flatten
  let commit_messages := commits.map (fun c => "- " ++ c.timestamp.ymdhm ++ ": " ++ c.message)
  "You are analyzing the complete development history of branch '" ++ branch_name ++
  "'.\n\nCOMMITS (" ++ toString commits.length ++ "):\n" ++
  String.intercalate "\n" commit_messages ++
  "\n\nDECISIONS MADE:\n" ++ jsonDumpsIndent 0 (.jarr (all_decisions.map .jstr)) ++
  "\n\nALTERNATIVES CONSIDERED:\n" ++ jsonDumpsIndent 0 (.jarr all_alternatives) ++
  "\n\nOTA LOGS COUNT: " ++ toString all_ota_logs.length ++
  "\n\nCURRENT CONTEXT:\n" ++
  (match current_context with
   | some ctx => (jsonDumpsIndent 0 ctx).take 1000
   | none => "None") ++
  "\n\nCreate a SQUASHED summary that captures the essence of this development. Focus on the FINAL OUTCOME.\n\nReturn as JSON with:\n1. \"decisions\": list of FINAL architectural decisions that were actually implemented (deduplicate, remove experiments)\n2. \"rejected_alternatives\": list of \x7b\"what\": \"...\", \"why_rejected\": \"...\"\x7d for seriously considered alternatives\n3. \"key_insights\": list of important learnings (max 5)\n4. \"architecture_summary\": string describing what was actually built (2-3 sentences)\n\nReturn ONLY valid JSON."

/-- Method `AnthropicProvider.squash_branch_history`: an empty commit
list returns the zero-valued result with summary "No commits in branch"
before any backend interaction; otherwise the backend response is
parsed into a `SquashResult` whose counts come from the input. -/
def squash_branch_history (backend : Backend) (branch_name : String)
    (commits : List ContextCommit) (current_context : Option Json)
    (now : DateTime) : Except GCError SquashResult :=
  if commits.isEmpty then
    .ok ⟨[], [], [], "No commits in branch", 0, 0, branch_name, now⟩
  else do
    let all_ota_logs := (commits.map (fun c => c.ota_logs.map OTALog.to_dict)).flatten
    let response ← call backend (squashPrompt branch_name commits current_context)
      (some analystSystem)
    let data := parseJsonResponse response
    match getStrListD data "decisions", getAltsD data "rejected_alternatives",
          getStrListD data "key_insights", getStrD data "architecture_summary" with
    | some ds, some alts, some ins, some summary =>
      .ok ⟨ds, alts, ins, summary, all_ota_logs.length, commits.length, branch_name, now⟩
    | _, _, _, _ => .error .validationError

end AnthropicProvider

/-- A constructed provider instance: the two operations the engine
invokes (`llm/provider.py`, class `LLMProvider`). -/
structure LLMProvider where
  analyze_ota_logs : List OTALog → Except GCError AnalysisResult
  squash_branch_history : String → List ContextCommit → Option Json → DateTime →
    Except GCError SquashResult

/-- The offline stub (`llm/__init__.py`, class `MockProvider`): fixed
canned output, no backend, never raises. -/
def MockProvider : LLMProvider where
  analyze_ota_logs := fun _ =>
    .ok ⟨["Use JWT for auth", "Implement Redis cache"],
         [⟨"Session auth", "Scalability issues"⟩],
         ["JWT works well with microservices"]⟩
  squash_branch_history := fun branch_name commits _ now =>
    .ok ⟨["Use JWT", "Redis cache"], [], ["Keep it simple"],
         "Built auth service", 0, commits.length, branch_name, now⟩

/-- The Anthropic provider packaged over a given backend. -/
def AnthropicProvider.provider (backend : Backend) : LLMProvider where
  analyze_ota_logs := AnthropicProvider.analyze_ota_logs backend
  squash_branch_history := fun b cs ctx now =>
    AnthropicProvider.squash_branch_history backend b cs ctx now

namespace LLMAnalyzer

/-- Method `LLMAnalyzer._mock_call` (`llm_integration.py`): the
deterministic offline response (the md5 `hash_val` it computes is never
used).  Rendered exactly as `json.dumps(..., ensure_ascii=False)`
renders the literal. -/
def mock_call (prompt : String) : String :=
  if strContainsSub prompt "squash_branch" || strContainsSub prompt "SQUASHED summary" then
    jsonDumps (.jobj
      [("decisions", .jarr [.jstr "Use JWT for authentication",
                            .jstr "Implement Redis caching for sessions",
                            .jstr "Use PostgreSQL for main database"]),
       ("rejected_alternatives", .jarr
         [.jobj [("what", .jstr "Session-based auth"), ("why_rejected", .jstr "Scalability issues")],
          .jobj [("what", .jstr "MongoDB"), ("why_rejected", .jstr "Need ACID transactions")]]),
       ("key_insights", .jarr [.jstr "JWT works better with microservices",
                               .jstr "Redis TTL should be 15 minutes for security"]),
       ("architecture_summary", .jstr "Built a scalable authentication service using JWT tokens stored in Redis cache with PostgreSQL as primary database.")])
  else
    jsonDumps (.jobj
      [("decisions", .jarr [.jstr "Implemented error handling", .jstr "Added logging"]),
       ("alternatives", .jarr []),
       ("insights", .jarr [.jstr "Always validate input"])])

/-- Method `LLMAnalyzer._call_anthropic`: the backend call is wrapped
in try/except, and ANY exception falls back to the mock output — the
caller never sees the raise. -/
def call_anthropic (backend : Backend) (prompt : String) : String :=
  match backend prompt (some analystSystem) with
  | .ok text => text
  | .error _ => mock_call prompt

/-- Method `LLMAnalyzer._call_openai`: same catch-all fallback to the
mock output. -/
def call_openai (backend : Backend) (prompt : String) : String :=
  match backend prompt (some analystSystem) with
  | .ok text => text
  | .error _ => mock_call prompt

/-- Method `LLMAnalyzer._call_ollama` (the system prompt is spliced
into the request body): same catch-all fallback to the mock output. -/
def call_ollama (backend : Backend) (prompt : String) : String :=
  match backend ("System: " ++ analystSystem ++ "\n\nUser: " ++ prompt) none with
  | .ok text => text
  | .error _ => mock_call prompt

/-- Method `LLMAnalyzer._call_deepseek`: same catch-all fallback to the
mock output. -/
def call_deepseek (backend : Backend) (prompt : String) : String :=
  match backend prompt (some analystSystem) with
  | .ok text => text
  | .error _ => mock_call prompt

end LLMAnalyzer

/-- The external collaborators the engine reads: the repository
adapter's tracked-file list (`git ls-files`), the working tree contents
and the content-fingerprint function (`get_file_hash`: first 16 hex
chars of SHA-256). -/
structure Env where
  trackedFiles : List String
  disk : Dict String
  hashFn : String → String

/-- One iteration of the `get_files_snapshot` loop: fingerprint the
file when it exists, skip it otherwise. -/
def snapshotStep (env : Env) (snap : Dict String) (f : String) : Dict String :=
  match env.disk.lookup f with
  | some content => snap.insert f (env.hashFn content)
  | none => snap

/-- Method `FileSystemStorage.get_files_snapshot`: one fingerprint per
tracked path that currently exists on disk; missing paths are simply
skipped. -/
def getFilesSnapshot (env : Env) : Dict String :=
  env.trackedFiles.foldl (snapshotStep env) Dict.empty

/-- The engine state: the Index plus the documents under the context
directory (JSON documents and text artifacts, keyed by path
segments). -/
structure GCState where
  index : Index
  docs : List (List String × Json)
  texts : List (List String × String)

/-- Overwrite-or-append a document at a path. -/
def putDoc {α} (docs : List (List String × α)) (path : List String) (v : α) :
    List (List String × α) :=
  aput docs path v

namespace GCState

/-- Method `FileSystemStorage.save_json` / `Serializer.to_json`:
`json.dump` raises `TypeError` when the value holds a raw datetime. -/
def saveJson (st : GCState) (path : List String) (j : Json) :
    Except GCError GCState :=
  if j.serializable then
    .ok { st with docs := putDoc st.docs path j }
  else
    .error .serializationTypeError

/-- Method `FileSystemStorage.save_text`. -/
def saveText (st : GCState) (path : List String) (text : String) : GCState :=
  { st with texts := putDoc st.texts path text }

/-- Read a stored JSON document. -/
def lookupDoc (st : GCState) (path : List String) : Option Json :=
  alookup st.docs path

/-- Python `storage.delete(...)` on a directory: drop everything whose
path starts with the given segments. -/
def deleteUnder (st : GCState) (pre : List String) : GCState :=
  { st with docs := st.docs.filter (fun e => !(pre.isPrefixOf e.1))
            texts := st.texts.filter (fun e => !(pre.isPrefixOf e.1)) }

end GCState

/-- Commit document path (`GitContext._save_commit`): `main` has its
own layout, other branches live under `contexts/branches`. -/
def commitDocPath (branch cid : String) : List String :=
  if branch = "main" then
    ["contexts", "main", "history", "commit_" ++ cid, "commit.json"]
  else
    ["contexts", "branches", branch, "history", "commit_" ++ cid, "commit.json"]

/-- OTA log document path (`GitContext._save_ota_logs`). -/
def otaLogsPath (branch cid : String) : List String :=
  if branch = "main" then
    ["contexts", "main", "ota-logs", "commit_" ++ cid ++ ".json"]
  else
    ["contexts", "branches", branch, "ota-logs", "commit_" ++ cid ++ ".json"]

namespace GCState

/-- Method `GitContext._save_commit`: serialize with `to_dict` and
write the document. -/
def saveCommit (st : GCState) (c : ContextCommit) (branch : String) :
    Except GCError GCState :=
  st.saveJson (commitDocPath branch c.id) c.to_dict

/-- Method `GitContext._load_commit`: `none` when the document does not
exist; a document that fails pydantic validation raises. -/
def loadCommit (st : GCState) (cid branch : String) :
    Except GCError (Option ContextCommit) :=
  match st.lookupDoc (commitDocPath branch cid) with
  | none => .ok none
  | some data =>
    match ContextCommit.from_dict data with
    | some c => .ok (some c)
    | none => .error .validationError

end GCState

/-- Loop body of `GitContext._get_branch_commits`: resolve each id,
skipping ids whose document is missing. -/
def loadCommitList (st : GCState) (branch : String) :
    List String → Except GCError (List ContextCommit)
  | [] => .ok []
  | cid :: rest => do
    match ← st.loadCommit cid branch with
    | some c => pure (c :: (← loadCommitList st branch rest))
    | none => loadCommitList st branch rest

/-- Method `GitContext._get_branch_commits`. -/
def GCState.getBranchCommits (st : GCState) (branch : String) :
    Except GCError (List ContextCommit) :=
  loadCommitList st branch (st.index.get_commits branch)

namespace GitContext

/-- Method `GitContext.init` on an uninitialized repository: directory
layout, a fresh default Index, the seed commit on `main`, and the
`.gitignore`.  `now` is the wall clock, `freshId` the generated commit
id (hex digest of timestamp plus a fresh UUID, truncated to 12
characters — `_generate_commit_id`). -/
def init (now : DateTime) (freshId : String) : Except GCError GCState := do
  let idx0 := Index.createDefault now
  let initial : ContextCommit :=
    { id := freshId
      message := "Initial context"
      timestamp := now
      parent := none
      decisions := ["Repository initialized with GitContext"]
      alternatives := []
      ota_logs := []
      files_snapshot := Dict.empty
      metadata := [] }
  let st0 : GCState :=
    { index := idx0
      docs := []
      texts := [([".gitignore"], "temp/\n*.log\n*.tmp\n")] }
  let st1 ← st0.saveCommit initial "main"
  let idx1 ← st1.index.add_commit "main" freshId now
  pure { st1 with index := idx1 }

/-- Method `GitContext.branch`: rejects empty names and names holding a
path separator, then delegates to `IndexManager.create_branch` with the
current branch as default source (`from_branch or current`: an empty
string is falsy too). -/
def branch (st : GCState) (name : String) (from_branch : Option String)
    (now : DateTime) : Except GCError GCState :=
  if name = "" || name.data.contains '/' || name.data.contains '\\' then
    .error (.invalidBranchName name)
  else
    let source :=
      match from_branch with
      | some s => if s = "" then st.index.get_current_branch else s
      | none => st.index.get_current_branch
    do
      let idx' ← st.index.create_branch name source now
      pure { st with index := idx' }

/-- Method `GitContext.checkout`: delegates to
`IndexManager.set_current_branch`. -/
def checkout (st : GCState) (branch : String) (now : DateTime) :
    Except GCError GCState := do
  let idx' ← st.index.set_current_branch branch now
  pure { st with index := idx' }

/-- Method `GitContext.commit`: snapshot the tracked files, optionally
run the provider over the supplied OTA logs (analysis-derived decisions
are used only when `decisions` was not truthy), build and persist the
new commit with the prior head as parent, append it to the Index, and
store the OTA logs beside it.  The optional best-effort auto-commit
into the underlying git repository touches only the external repo and
is not part of this state. -/
def commit (st : GCState) (env : Env) (prov : LLMProvider) (message : String)
    (ota_logs : Option (List OTALog)) (decisions : Option (List String))
    (now : DateTime) (freshId : String) : Except GCError (String × GCState) := do
  let current_branch := st.index.get_current_branch
  let current_commit := st.index.get_current_commit current_branch
  let files_snapshot := getFilesSnapshot env
  let otas := match ota_logs with | some l => l | none => []
  let step ←
    if otas.isEmpty then
      pure ((match decisions with | some d => d | none => []),
            ([] : List Alternative), ([] : List (String × Json)))
    else do
      let analysis ← prov.analyze_ota_logs otas
      let ds :=
        match decisions with
        | some (d :: rest) => d :: rest
        | _ => analysis.decisions
      pure (ds, analysis.alternatives,
            [("insights", Json.jarr (analysis.insights.map .jstr))])
  let c : ContextCommit :=
    { id := freshId
      message := message
      timestamp := now
      parent := current_commit
      decisions := step.1
      alternatives := step.2.1
      ota_logs := otas
      files_snapshot := files_snapshot
      metadata := step.2.2 }
  let st1 ← st.saveCommit c current_branch
  let idx' ← st1.index.add_commit current_branch freshId now
  let st2 := { st1 with index := idx' }
  let st3 ←
    if otas.isEmpty then pure st2
    else GCState.saveJson st2 (otaLogsPath current_branch freshId) (Json.jarr (otas.map OTALog.to_dict))
  pure (freshId, st3)

/-- Method `GitContext._get_current_context`: branch name, first 20
tracked files, and the latest commit's message and decisions when one
loads. -/
def getCurrentContext (st : GCState) (env : Env) : Except GCError Json := do
  let current_branch := st.index.get_current_branch
  let current_commit := st.index.get_current_commit current_branch
  let base := [("branch", Json.jstr current_branch),
               ("files", Json.jarr ((env.trackedFiles.take 20).map .jstr))]
  match current_commit with
  | none => pure (.jobj base)
  | some cid =>
    match ← st.loadCommit cid current_branch with
    | some c =>
      pure (.jobj (base ++ [("latest_commit", .jstr c.message),
                            ("decisions", .jarr (c.decisions.map .jstr))]))
    | none => pure (.jobj base)

/-- Method `GitContext._archive_branch`: under
`archive/{branch}_{timestamp}` write `branch.json` (all original commit
records plus the squash result), the human-readable `summary.md`, and —
only when some commit carried OTA logs — `ota_logs.json`. -/
def archiveBranchDoc (branch : String) (commits : List ContextCommit)
    (result : SquashResult) (now : DateTime) : Json :=
  .jobj [("branch", .jstr branch),
         ("archived_at", .jstr now.isoformat),
         ("commits", .jarr (commits.map ContextCommit.to_dict)),
         ("squash_result", result.to_dict)]

def archiveBranch (st : GCState) (branch : String)
    (commits : List ContextCommit) (result : SquashResult) (now : DateTime) :
    Except GCError GCState := do
  let archive_dir := branch ++ "_" ++ now.compactStamp
  let branch_data : Json := archiveBranchDoc branch commits result now
  let st1 ← st.saveJson ["archive", archive_dir, "branch.json"] branch_data
  let st2 := st1.saveText ["archive", archive_dir, "summary.md"] result.to_markdown
  let all_ota := (commits.map (fun c => c.ota_logs.map OTALog.to_dict)).flatten
  if all_ota.isEmpty then pure st2
  else st2.saveJson ["archive", archive_dir, "ota_logs.json"] (.jarr all_ota)

/-- Method `GitContext._apply_squash_result`: synthesize the squash
commit on the current branch (decisions and alternatives from the
result, no OTA logs, metadata recording the squash) and append it. -/
def squashCommitOf (env : Env) (result : SquashResult) (now : DateTime)
    (freshId : String) (parent : Option String) : ContextCommit :=
  { id := freshId
    message := "🔄 Squash merge: " ++ result.branch_name
    timestamp := now
    parent := parent
    decisions := result.decisions
    alternatives := result.rejected_alternatives
    ota_logs := []
    files_snapshot := getFilesSnapshot env
    metadata := [("squash_merge", .jbool true),
                 ("source_branch", .jstr result.branch_name),
                 ("original_commits", .jnum result.original_commits),
                 ("insights", .jarr (result.key_insights.map .jstr)),
                 ("architecture_summary", .jstr result.architecture_summary)] }

def applySquashResult (st : GCState) (env : Env) (result : SquashResult)
    (now : DateTime) (freshId : String) : Except GCError GCState := do
  let current_branch := st.index.get_current_branch
  let current_commit := st.index.get_current_commit current_branch
  let squash_commit : ContextCommit :=
    squashCommitOf env result now freshId current_commit
  let st1 ← st.saveCommit squash_commit current_branch
  let idx' ← st1.index.add_commit current_branch freshId now
  pure { st1 with index := idx' }

/-- Loop of the non-squash merge path: copy every source commit object
(id and content preserved) onto the current branch in original order. -/
def copyCommitsOnto (current_branch : String) (now : DateTime) :
    GCState → List ContextCommit → Except GCError GCState
  | st, [] => .ok st
  | st, c :: rest => do
    let st1 ← st.saveCommit c current_branch
    let idx' ← st1.index.add_commit current_branch c.id now
    copyCommitsOnto current_branch now { st1 with index := idx' } rest

/-- Method `GitContext.merge`: self-merge and unknown branches raise;
the squash path analyzes, archives, applies the squash commit, then
deletes the source branch from the Index and from storage; the simple
path copies all commits over and deletes the source branch. -/
def merge (st : GCState) (env : Env) (prov : LLMProvider) (branch : String)
    (squash : Bool) (now : DateTime) (freshId : String) :
    Except GCError (SquashResult × GCState) := do
  let current_branch := st.index.get_current_branch
  if branch = current_branch then .error .selfMerge
  else match st.index.get_branch branch with
  | none => .error (.mergeBranchNotFound branch)
  | some _ => do
    let commits ← st.getBranchCommits branch
    if squash then do
      let current_context ← getCurrentContext st env
      let result ← prov.squash_branch_history branch commits (some current_context) now
      let st1 ← archiveBranch st branch commits result now
      let st2 ← applySquashResult st1 env result now freshId
      let idx' ← st2.index.delete_branch branch now
      let st3 := GCState.deleteUnder { st2 with index := idx' }
        ["contexts", "branches", branch]
      pure (result, st3)
    else do
      let st1 ← copyCommitsOnto current_branch now st commits
      let idx' ← st1.index.delete_branch branch now
      let st2 := GCState.deleteUnder { st1 with index := idx' }
        ["contexts", "branches", branch]
      pure ((⟨[], [], [], "Simple merge completed", 0, commits.length, branch, now⟩ :
              SquashResult), st2)

end GitContext

/-- The dict `GitContext.status` returns (the `pending_ota_logs` count
of staged `temp/ota_*.json` files concerns only the temp scratch area
and is outside this state model). -/
structure StatusResult where
  current_branch : String
  commits : Nat
  latest_commit : Option String
  latest_commit_id : Option String
  uncommitted_changes : Bool
  all_branches : List String

/-- Method `GitContext.status`: the uncommitted flag compares a fresh
tracked-file snapshot against the latest commit's stored snapshot with
Python dict equality. -/
def GitContext.status (st : GCState) (env : Env) :
    Except GCError StatusResult := do
  let current_branch := st.index.get_current_branch
  let branch_data := st.index.get_branch current_branch
  let latest ←
    match branch_data with
    | some bd =>
      match bd.current_commit with
      | some cid => st.loadCommit cid current_branch
      | none => pure none
    | none => pure none
  let current_files := getFilesSnapshot env
  let uncommitted :=
    match latest with
    | some c => !(current_files.pyEq c.files_snapshot)
    | none => false
  pure { current_branch := current_branch
         commits := match branch_data with | some bd => bd.commits.length | none => 0
         latest_commit := latest.map (fun c => c.message)
         latest_commit_id := latest.map (fun c => c.id.take 8)
         uncommitted_changes := uncommitted
         all_branches := st.index.branches.keys }

/-! Concrete constants used by witnesses, counterexamples and the
C5 scenario. -/

/-- A fixed wall-clock instant. -/
def t0 : DateTime := ⟨2024, 1, 1, 0, 0, 0, 0⟩

/-- A trivial external environment: no tracked files. -/
def envEmpty : Env := { trackedFiles := [], disk := Dict.empty, hashFn := fun s => s }

/-- A backend whose every call raises (network unreachable). -/
def failingBackend : Backend := fun _ _ => .error (.llmApiError "connection error")

/-- The head invariant of C8: in every branch record, a non-null head
commit id is the last element of the branch's commit-id list. -/
def headIsLast (idx : Index) : Prop :=
  ∀ name bd cid, idx.branches.lookup name = some bd →
    bd.current_commit = some cid → bd.commits.getLast? = some cid

/-- Run a sequence of later `add_commit` calls against one branch. -/
def addCommitsOn (src : String) : List (String × DateTime) → Index → Index
  | [], idx => idx
  | (cid, now) :: rest, idx =>
      addCommitsOn src rest ((IndexOp.addCommit src cid).apply now idx)

/-- A concrete commit with one OTA log, the failing input of C4. -/
def commitWithOta : ContextCommit :=
  { id := "c9"
    message := "add auth"
    timestamp := ⟨2024, 1, 2, 10, 30, 0, 0⟩
    parent := some "c0"
    decisions := ["Use JWT"]
    alternatives := [⟨"Sessions", "Scalability"⟩]
    ota_logs := [{ id := "o1", thought := "t", action := "a", result := "r",
                   timestamp := ⟨2024, 1, 2, 10, 29, 0, 0⟩,
                   files_affected := ["auth.py"], metadata := [] }]
    files_snapshot := Dict.empty.insert "auth.py" "abcd"
    metadata := [] }

/-- The same commit without the OTA log. -/
def commitNoOta : ContextCommit := { commitWithOta with id := "c8", ota_logs := [] }

/-- An empty engine state to write into. -/
def stEmpty : GCState :=
  { index := Index.createDefault t0, docs := [], texts := [] }

/-- A commit whose files_snapshot is empty (omits every path). -/
def commitEmptySnap : ContextCommit :=
  { id := "c0", message := "m", timestamp := t0, parent := none,
    decisions := [], alternatives := [], ota_logs := [],
    files_snapshot := Dict.empty, metadata := [] }

/-- A state whose current branch `main` has head `c0` with the
empty-snapshot commit stored. -/
def stC6 : GCState :=
  { index :=
      { version := "1.0", created := "", last_modified := "",
        current_branch := "main",
        branches := Dict.empty.insert "main"
          { created := "", last_modified := "", parent := none,
            current_commit := some "c0", commits := ["c0"], metadata := [] } }
    docs := [(commitDocPath "main" "c0", commitEmptySnap.to_dict)]
    texts := [] }

/-- Tracked path `p` that does NOT exist in the working tree (a tracked
file deleted from disk — `git ls-files` still lists it). -/
def envTrackedMissing : Env :=
  { trackedFiles := ["p"], disk := Dict.empty, hashFn := fun s => s }

/-- Tracked path `p` that does exist in the working tree. -/
def envTrackedPresent : Env :=
  { trackedFiles := ["p"], disk := Dict.empty.insert "p" "body",
    hashFn := fun s => s }

/-- The C5 scenario with a separator-free branch name, run with the
deterministic stub provider: init, branch, checkout, one commit with
decisions ["Use X"], checkout main, squash merge. -/
def scenarioC5 : Except GCError (SquashResult × GCState) := do
  let st0 ← GitContext.init t0 "id0"
  let st1 ← GitContext.branch st0 "featurex" none t0
  let st2 ← GitContext.checkout st1 "featurex" t0
  let (_, st3) ← GitContext.commit st2 envEmpty MockProvider "add X" none
    (some ["Use X"]) t0 "id1"
  let st4 ← GitContext.checkout st3 "main" t0
  GitContext.merge st4 envEmpty MockProvider "featurex" true t0 "id2"

/-- Unwrap an `Except` with a default (used to name the scenario's
intermediate states so each evaluation step is shared). -/
def okOr {ε α : Type} (e : Except ε α) (d : α) : α :=
  match e with | .ok a => a | .error _ => d

def c5St0 : GCState := okOr (GitContext.init t0 "id0") stEmpty

def c5St1 : GCState := okOr (GitContext.branch c5St0 "featurex" none t0) stEmpty

def c5St2 : GCState := okOr (GitContext.checkout c5St1 "featurex" t0) stEmpty

def c5St3 : GCState :=
  (okOr (GitContext.commit c5St2 envEmpty MockProvider "add X" none
    (some ["Use X"]) t0 "id1") ("", stEmpty)).2

def c5St4 : GCState := okOr (GitContext.checkout c5St3 "main" t0) stEmpty

def c5MergeRes : SquashResult × GCState :=
  okOr (GitContext.merge c5St4 envEmpty MockProvider "featurex" true t0 "id2")
    (⟨[], [], [], "", 0, 0, "", t0⟩, stEmpty)

/-- A state whose current branch is "feat" while "main" holds one
commit — the input on which merging "main" breaks. -/
def stC1x : GCState :=
  { index :=
      { version := "1.0", created := "", last_modified := "",
        current_branch := "feat",
        branches := (Dict.empty.insert "main"
          { created := "", last_modified := "", parent := none,
            current_commit := some "m0", commits := ["m0"], metadata := [] }).insert "feat"
          { created := "", last_modified := "", parent := some "main",
            current_commit := none, commits := [], metadata := [] } }
    docs := [(commitDocPath "main" "m0", ContextCommit.to_dict
      { id := "m0", message := "seed", timestamp := t0, parent := none,
        decisions := [], alternatives := [], ota_logs := [],
        files_snapshot := Dict.empty, metadata := [] })]
    texts := [] }

/-- Witness inputs for C1: "feat" holds two commits forked off "main". -/
def cW0 : ContextCommit :=
  { id := "i0", message := "first", timestamp := t0, parent := none,
    decisions := ["d0"], alternatives := [], ota_logs := [],
    files_snapshot := Dict.empty, metadata := [] }

def cW1 : ContextCommit :=
  { cW0 with id := "i1", message := "second", parent := some "i0" }

def bdMainW : BranchData :=
  { created := "", last_modified := "", parent := none,
    current_commit := some "i0", commits := ["i0"], metadata := [] }

def bdFeatW : BranchData :=
  { created := "", last_modified := "", parent := some "main",
    current_commit := some "i1", commits := ["i0", "i1"], metadata := [] }

def stW : GCState :=
  { index :=
      { version := "1.0", created := "", last_modified := "",
        current_branch := "main",
        branches := (Dict.empty.insert "main" bdMainW).insert "feat" bdFeatW }
    docs := [(commitDocPath "main" "i0", cW0.to_dict),
             (commitDocPath "feat" "i0", cW0.to_dict),
             (commitDocPath "feat" "i1", cW1.to_dict)]
    texts := [] }

def commitsW : List ContextCommit := okOr (stW.getBranchCommits "feat") []

def ctxW : Json := okOr (GitContext.getCurrentContext stW envEmpty) (.jobj [])

def resultW : SquashResult :=
  okOr (MockProvider.squash_branch_history "feat" commitsW (some ctxW) t0)
    ⟨[], [], [], "", 0, 0, "", t0⟩


/-! Association-list lemmas shared by the Index, snapshot and document
store proofs. -/

section AssocLemmas

lemma find?_filter_of_imp {β : Type} (p q : β → Bool) (l : List β)
    (h : ∀ x, p x = true → q x = true) :
    (l.filter q).find? p = l.find? p := by
  induction l with
  | nil => rfl
  | cons a l ih =>
    by_cases hq : q a = true
    · by_cases hp : p a = true
      · simp [List.filter_cons, hq, List.find?, hp]
      · have hp' : p a = false := by simpa using hp
        simp [List.filter_cons, hq, List.find?, hp', ih]
    · have hq' : q a = false := by simpa using hq
      have hp : p a = false := by
        cases hpa : p a with
        | true => exact absurd (h a hpa) hq
        | false => rfl
      simp [List.filter_cons, hq', List.find?, hp, ih]

variable {κ α : Type} [BEq κ] [LawfulBEq κ]

lemma find?_replace_self (l : List (κ × α)) (k : κ) (v : α) :
    (l.map (fun kv => if kv.1 == k then (k, v) else kv)).find?
        (fun kv => kv.1 == k) =
      if (l.find? (fun kv => kv.1 == k)).isSome then some (k, v) else none := by
  induction l with
  | nil => rfl
  | cons kv l ih =>
    by_cases hkv : kv.1 = k
    · have h1 : (kv.1 == k) = true := beq_iff_eq.mpr hkv
      simp [List.find?, h1]
    · have hb : (kv.1 == k) = false := beq_eq_false_iff_ne.mpr hkv
      simp only [List.map_cons, hb, Bool.false_eq_true, if_false, List.find?, ih]

lemma find?_replace_ne (l : List (κ × α)) (k : κ) (v : α) (k' : κ)
    (h : k' ≠ k) :
    (l.map (fun kv => if kv.1 == k then (k, v) else kv)).find?
        (fun kv => kv.1 == k') =
      l.find? (fun kv => kv.1 == k') := by
  induction l with
  | nil => rfl
  | cons kv l ih =>
    by_cases hkv : kv.1 = k
    · have h1 : (kv.1 == k) = true := beq_iff_eq.mpr hkv
      have h2 : (k == k') = false := beq_eq_false_iff_ne.mpr (fun hh => h hh.symm)
      have h3 : (kv.1 == k') = false := by rw [hkv]; exact h2
      simp only [List.map_cons, h1, if_true, List.find?, h2, h3, ih]
    · have hb : (kv.1 == k) = false := beq_eq_false_iff_ne.mpr hkv
      simp only [List.map_cons, hb, Bool.false_eq_true, if_false, List.find?, ih]

lemma alookup_put_self (l : List (κ × α)) (k : κ) (v : α) :
    alookup (aput l k v) k = some v := by
  unfold aput alookup
  by_cases h : (l.find? (fun kv => kv.1 == k)).isSome
  · rw [if_pos h, find?_replace_self, if_pos h]
    rfl
  · rw [if_neg h]
    have hnone : l.find? (fun kv => kv.1 == k) = none :=
      Option.not_isSome_iff_eq_none.mp h
    rw [List.find?_append, hnone]
    simp [List.find?]

lemma alookup_put_ne (l : List (κ × α)) (k : κ) (v : α) (k' : κ)
    (h : k' ≠ k) : alookup (aput l k v) k' = alookup l k' := by
  unfold aput alookup
  by_cases hs : (l.find? (fun kv => kv.1 == k)).isSome
  · rw [if_pos hs, find?_replace_ne l k v k' h]
  · rw [if_neg hs, List.find?_append]
    cases hf : l.find? (fun kv => kv.1 == k') with
    | none =>
      have hk : ((k, v).1 == k') = false := beq_eq_false_iff_ne.mpr (fun hh => h hh.symm)
      simp [List.find?, hk]
    | some kv => simp

lemma alookup_filterkey_self (l : List (κ × α)) (k : κ) :
    alookup (l.filter (fun kv => kv.1 != k)) k = none := by
  unfold alookup
  induction l with
  | nil => rfl
  | cons kv l ih =>
    by_cases hkv : kv.1 = k
    · have hb : (kv.1 != k) = false := by simp [bne, hkv]
      simp only [List.filter_cons, hb, Bool.false_eq_true, if_false]
      exact ih
    · have hb : (kv.1 != k) = true := by simp [bne, hkv]
      have hb2 : (kv.1 == k) = false := beq_eq_false_iff_ne.mpr hkv
      simp only [List.filter_cons, hb, if_true, List.find?, hb2]
      exact ih

lemma alookup_filterkey_ne (l : List (κ × α)) (k k' : κ) (h : k' ≠ k) :
    alookup (l.filter (fun kv => kv.1 != k)) k' = alookup l k' := by
  unfold alookup
  rw [find?_filter_of_imp]
  intro x hx
  have hx' : x.1 = k' := eq_of_beq hx
  simp [bne, hx']
  exact fun hh => h hh

lemma mem_of_alookup_eq_some (l : List (κ × α)) (k : κ) (v : α)
    (h : alookup l k = some v) : (k, v) ∈ l := by
  unfold alookup at h
  cases hf : l.find? (fun kv => kv.1 == k) with
  | none => rw [hf] at h; cases h
  | some kv =>
    rw [hf] at h
    have hmem := List.mem_of_find?_eq_some hf
    have hp := List.find?_some hf
    have hk : kv.1 = k := eq_of_beq (by simpa using hp)
    have hv : kv.2 = v := by cases h; rfl
    have heq : (k, v) = kv := by
      cases kv
      simp only at hk hv
      simp [hk, hv]
    rw [heq]; exact hmem

end AssocLemmas

namespace Dict

lemma lookup_empty {α : Type} (k : String) :
    (Dict.empty : Dict α).lookup k = none := rfl

lemma lookup_insert_self {α : Type} (d : Dict α) (k : String) (v : α) :
    (d.insert k v).lookup k = some v :=
  alookup_put_self d.entries k v

lemma lookup_insert_ne {α : Type} (d : Dict α) (k : String) (v : α)
    (k' : String) (h : k' ≠ k) : (d.insert k v).lookup k' = d.lookup k' :=
  alookup_put_ne d.entries k v k' h

lemma lookup_erase_self {α : Type} (d : Dict α) (k : String) :
    (d.erase k).lookup k = none :=
  alookup_filterkey_self d.entries k

lemma lookup_erase_ne {α : Type} (d : Dict α) (k k' : String) (h : k' ≠ k) :
    (d.erase k).lookup k' = d.lookup k' :=
  alookup_filterkey_ne d.entries k k' h

lemma hasKey_of_lookup_eq_some {α : Type} {d : Dict α} {k : String} {v : α}
    (h : d.lookup k = some v) : d.hasKey k = true := by
  simp [Dict.hasKey, h]

end Dict

/-! Serializability lemmas: which documents `json.dump` accepts. -/

lemma serializableList_map_jstr (l : List String) :
    Json.serializableList (l.map Json.jstr) = true := by
  induction l with
  | nil => rfl
  | cons s l ih => simp [Json.serializableList, Json.serializable, ih]

lemma serializableList_map_alt (l : List Alternative) :
    Json.serializableList (l.map Alternative.to_dict) = true := by
  induction l with
  | nil => rfl
  | cons a l ih =>
    simp [Json.serializableList, Json.serializable, Alternative.to_dict,
          Json.serializableFields, ih]

lemma serializableFields_snapshot (entries : List (String × String)) :
    Json.serializableFields (entries.map (fun kv => (kv.1, Json.jstr kv.2))) = true := by
  induction entries with
  | nil => rfl
  | cons kv l ih => simp [Json.serializableFields, Json.serializable, ih]

lemma serializable_squashResult_to_dict (r : SquashResult) :
    (r.to_dict).serializable = true := by
  simp [SquashResult.to_dict, Json.serializable, Json.serializableFields,
        serializableList_map_jstr, serializableList_map_alt]

lemma serializable_ota_to_dict (log : OTALog) :
    (OTALog.to_dict log).serializable = false := by
  simp [OTALog.to_dict, Json.serializable, Json.serializableFields]

lemma ota_nil_of_to_dict_serializable {c : ContextCommit}
    (h : (ContextCommit.to_dict c).serializable = true) : c.ota_logs = [] := by
  simp only [ContextCommit.to_dict, Json.serializable, Json.serializableFields,
             Bool.and_eq_true] at h
  obtain ⟨_, _, _, _, _, _, hx, _, _⟩ := h
  cases hl : c.ota_logs with
  | nil => rfl
  | cons log rest =>
    exfalso
    rw [hl] at hx
    simp only [List.map_cons, Json.serializableList, serializable_ota_to_dict,
               Bool.false_and] at hx
    cases hx

lemma serializable_commit_to_dict_of (c : ContextCommit)
    (hota : c.ota_logs = [])
    (hmeta : Json.serializableFields c.metadata = true) :
    (c.to_dict).serializable = true := by
  cases hp : c.parent with
  | none =>
    simp [ContextCommit.to_dict, Json.serializable, Json.serializableFields,
          hota, hp, Json.serializableList, serializableList_map_jstr,
          serializableList_map_alt, serializableFields_snapshot, hmeta]
  | some p =>
    simp [ContextCommit.to_dict, Json.serializable, Json.serializableFields,
          hota, hp, Json.serializableList, serializableList_map_jstr,
          serializableList_map_alt, serializableFields_snapshot, hmeta]

lemma serializableList_true_of_mem {l : List Json} {x : Json}
    (h : Json.serializableList l = true) (hx : x ∈ l) :
    x.serializable = true := by
  induction l with
  | nil => cases hx
  | cons a l ih =>
    rw [Json.serializableList, Bool.and_eq_true] at h
    rcases hx with _ | hx
    · exact h.1
    · exact ih h.2 (by assumption)

lemma serializableList_map_true_of_forall {β : Type} (f : β → Json)
    {l : List β} (h : ∀ c ∈ l, (f c).serializable = true) :
    Json.serializableList (l.map f) = true := by
  induction l with
  | nil => rfl
  | cons a l ih =>
    simp only [List.map_cons, Json.serializableList, Bool.and_eq_true]
    exact ⟨h a (List.mem_cons_self a l), ih (fun c hc => h c (List.mem_cons_of_mem a hc))⟩

/-! Snapshot lemmas. -/

lemma snapshot_fold_keeps (env : Env) (l : List String) (p content : String)
    (hd : env.disk.lookup p = some content) :
    ∀ snap : Dict String, snap.lookup p = some (env.hashFn content) →
      (l.foldl (snapshotStep env) snap).lookup p = some (env.hashFn content) := by
  induction l with
  | nil => intro snap h; exact h
  | cons f l ih =>
    intro snap h
    rw [List.foldl_cons]
    apply ih
    unfold snapshotStep
    by_cases hf : f = p
    · subst hf
      rw [hd, Dict.lookup_insert_self]
    · cases henv : env.disk.lookup f with
      | none => exact h
      | some c2 => rw [Dict.lookup_insert_ne _ _ _ _ (fun hh => hf hh.symm)]; exact h

lemma snapshot_fold_mem (env : Env) (l : List String) (p content : String)
    (hd : env.disk.lookup p = some content) :
    ∀ snap : Dict String, p ∈ l →
      (l.foldl (snapshotStep env) snap).lookup p = some (env.hashFn content) := by
  induction l with
  | nil => intro snap h; cases h
  | cons f l ih =>
    intro snap hmem
    rw [List.foldl_cons]
    by_cases hf : f = p
    · subst hf
      apply snapshot_fold_keeps env l f content hd
      unfold snapshotStep
      rw [hd, Dict.lookup_insert_self]
    · cases hmem with
      | head => exact absurd rfl hf
      | tail _ hmem => exact ih _ hmem

lemma snapshot_lookup_of_tracked (env : Env) (p content : String)
    (hmem : p ∈ env.trackedFiles) (hd : env.disk.lookup p = some content) :
    (getFilesSnapshot env).lookup p = some (env.hashFn content) :=
  snapshot_fold_mem env env.trackedFiles p content hd Dict.empty hmem

/-- When the fresh snapshot binds a path the stored one lacks, the two
dicts are not Python-equal. -/
lemma pyEq_false_of_extra_key {d1 d2 : Dict String} {p v : String}
    (h1 : d1.lookup p = some v) (h2 : d2.lookup p = none) :
    d1.pyEq d2 = false := by
  cases hall : d1.pyEq d2 with
  | false => rfl
  | true =>
    exfalso
    unfold Dict.pyEq at hall
    rw [Bool.and_eq_true] at hall
    have hmem : (p, v) ∈ d1.entries := mem_of_alookup_eq_some d1.entries p v h1
    have := (List.all_eq_true.mp hall.1) (p, v) hmem
    simp only at this
    rw [h2] at this
    cases this

/-! Document-store lemmas. -/

lemma lookupDoc_saveJson_self {st st' : GCState} {path : List String} {j : Json}
    (h : st.saveJson path j = Except.ok st') :
    st'.lookupDoc path = some j := by
  unfold GCState.saveJson at h
  by_cases hs : j.serializable = true
  · rw [if_pos hs] at h
    cases h
    unfold GCState.lookupDoc putDoc
    exact alookup_put_self st.docs path j
  · rw [if_neg hs] at h
    cases h

lemma lookupDoc_saveJson_ne {st st' : GCState} {path path' : List String} {j : Json}
    (h : st.saveJson path j = Except.ok st') (hne : path' ≠ path) :
    st'.lookupDoc path' = st.lookupDoc path' := by
  unfold GCState.saveJson at h
  by_cases hs : j.serializable = true
  · rw [if_pos hs] at h
    cases h
    unfold GCState.lookupDoc putDoc
    exact alookup_put_ne st.docs path j path' hne
  · rw [if_neg hs] at h
    cases h

lemma saveJson_index {st st' : GCState} {path : List String} {j : Json}
    (h : st.saveJson path j = Except.ok st') : st'.index = st.index := by
  unfold GCState.saveJson at h
  by_cases hs : j.serializable = true
  · rw [if_pos hs] at h; cases h; rfl
  · rw [if_neg hs] at h; cases h

lemma saveJson_ok_of_serializable (st : GCState) (path : List String) {j : Json}
    (hs : j.serializable = true) :
    st.saveJson path j = Except.ok { st with docs := putDoc st.docs path j } := by
  unfold GCState.saveJson
  rw [if_pos hs]

lemma lookupDoc_saveText (st : GCState) (path' path : List String) (t : String) :
    (st.saveText path t).lookupDoc path' = st.lookupDoc path' := rfl

lemma lookupDoc_deleteUnder {st : GCState} {pre path : List String}
    (h : pre.isPrefixOf path = false) :
    (st.deleteUnder pre).lookupDoc path = st.lookupDoc path := by
  unfold GCState.deleteUnder GCState.lookupDoc alookup
  apply congrArg
  apply find?_filter_of_imp
  intro x hx
  have hx' : x.1 = path := by
    have : (x.1 == path) = true := hx
    exact eq_of_beq this
  rw [hx', h]
  rfl

lemma isPrefixOf_self {β : Type} [BEq β] [LawfulBEq β] (l : List β) :
    l.isPrefixOf l = true := by
  induction l with
  | nil => rfl
  | cons a l ih => simp [List.isPrefixOf, ih]

lemma any_filter_false_of_imp {β : Type} (l : List β) (q r : β → Bool)
    (h : ∀ x, r x = true → q x = true) :
    (l.filter (fun e => !(q e))).any r = false := by
  rw [List.any_filter]
  rw [← Bool.not_eq_true]
  intro hc
  obtain ⟨x, _, hx⟩ := List.any_eq_true.mp hc
  rw [Bool.and_eq_true] at hx
  rw [h x hx.2] at hx
  cases hx.1

/-! Index operation lemmas. -/

lemma add_commit_ok {idx : Index} {branch : String} {bd : BranchData}
    (cid : String) (now : DateTime)
    (h : idx.branches.lookup branch = some bd) :
    idx.add_commit branch cid now =
      Except.ok { idx with
        branches := idx.branches.insert branch
          { bd with commits := bd.commits ++ [cid]
                    current_commit := some cid
                    last_modified := now.isoformat }
        last_modified := now.isoformat } := by
  unfold Index.add_commit
  rw [h]

lemma delete_branch_ok {idx : Index} {name : String} (now : DateTime)
    (hk : idx.branches.hasKey name = true) (hm : name ≠ "main")
    (hc : name ≠ idx.current_branch) :
    idx.delete_branch name now =
      Except.ok { idx with branches := idx.branches.erase name
                           last_modified := now.isoformat } := by
  unfold Index.delete_branch
  rw [if_neg (by simp [hk]), if_neg hm, if_neg hc]

/-! Shared concrete inputs for witnesses and counterexamples. -/

/-- C10: for every path, the Persistent Store's delete operation
returns False without raising when the target does not exist, and
returns True after removing it (unlinking a file or recursively
removing a directory) when it does exist.  The well-formedness
hypothesis says no path is simultaneously a file and a directory. -/
theorem claim_C10 (fs : FS) (p : List String) (hwf : fs.WF = true) :
    (fs.pathExists p = false → fs.delete p = (fs, false)) ∧
    (fs.pathExists p = true →
      (fs.delete p).2 = true ∧ ((fs.delete p).1).pathExists p = false) := by
  constructor
  · intro h
    unfold FS.delete
    rw [if_pos (by simp [h])]
  · intro h
    unfold FS.delete
    rw [if_neg (by simp [h])]
    by_cases hf : fs.isFile p = true
    · rw [if_pos hf]
      refine ⟨rfl, ?_⟩
      unfold FS.pathExists FS.isFile
      have h1 : (fs.files.filter (fun e => !(e.1 == p))).any (fun e => e.1 == p) = false :=
        any_filter_false_of_imp _ _ _ (fun x hx => hx)
      have h2 : fs.dirs.any (fun d => d == p) = false := by
        unfold FS.isFile at hf
        obtain ⟨e, hmem, he⟩ := List.any_eq_true.mp hf
        have hep : e.1 = p := eq_of_beq he
        have := (List.all_eq_true.mp hwf) e hmem
        rw [hep] at this
        simpa using this
      simp only [h1, h2, Bool.or_self]
    · rw [if_neg hf]
      refine ⟨rfl, ?_⟩
      unfold FS.pathExists FS.isFile
      have h1 : (fs.files.filter (fun e => !(p.isPrefixOf e.1))).any
          (fun e => e.1 == p) = false := by
        apply any_filter_false_of_imp
        intro x hx
        rw [eq_of_beq hx]
        exact isPrefixOf_self p
      have h2 : (fs.dirs.filter (fun d => !(p.isPrefixOf d))).any
          (fun d => d == p) = false := by
        apply any_filter_false_of_imp
        intro x hx
        rw [eq_of_beq hx]
        exact isPrefixOf_self p
      simp only [h1, h2, Bool.or_self]

/-- C10 witness: a concrete store with one file inside one directory:
deleting a missing path reports False and is harmless, deleting the
directory removes it. -/
theorem claim_C10_witness :
    let fs : FS := { files := [(["a", "b"], "x")], dirs := [["a"]] }
    fs.pathExists ["c"] = false ∧ fs.delete ["c"] = (fs, false) ∧
    fs.pathExists ["a"] = true ∧ (fs.delete ["a"]).2 = true ∧
    ((fs.delete ["a"]).1).pathExists ["a"] = false := by
  intro fs
  have hwf : fs.WF = true := by decide
  refine ⟨by decide, (claim_C10 fs ["c"] hwf).1 (by decide), by decide, ?_, ?_⟩
  · exact ((claim_C10 fs ["a"] hwf).2 (by decide)).1
  · exact ((claim_C10 fs ["a"] hwf).2 (by decide)).2

/-- C9: deleteBranch(name) fails with BranchNotFound when name is
absent, with ProtectedBranch when name is "main", and with ActiveBranch
when name is the currently checked-out branch, leaving the Index
unchanged in each failure case (the persisted document is rewritten
only on success); in every other case it removes exactly that branch. -/
theorem claim_C9 (idx : Index) (name : String) (now : DateTime) :
    (idx.branches.hasKey name = false →
      idx.delete_branch name now = .error (.branchNotFound name) ∧
      (IndexOp.deleteBranch name).apply now idx = idx) ∧
    (idx.branches.hasKey name = true → name = "main" →
      idx.delete_branch name now = .error .protectedBranch ∧
      (IndexOp.deleteBranch name).apply now idx = idx) ∧
    (idx.branches.hasKey name = true → name ≠ "main" →
      name = idx.current_branch →
      idx.delete_branch name now = .error .activeBranch ∧
      (IndexOp.deleteBranch name).apply now idx = idx) ∧
    (idx.branches.hasKey name = true → name ≠ "main" →
      name ≠ idx.current_branch →
      ∃ idx', idx.delete_branch name now = .ok idx' ∧
        idx'.branches.lookup name = none ∧
        (∀ other, other ≠ name →
          idx'.branches.lookup other = idx.branches.lookup other) ∧
        idx'.current_branch = idx.current_branch) := by
  refine ⟨?_, ?_, ?_, ?_⟩
  · intro h
    have hd : idx.delete_branch name now = .error (.branchNotFound name) := by
      unfold Index.delete_branch
      rw [if_pos (by simp [h])]
    exact ⟨hd, by simp only [IndexOp.apply, hd]; rfl⟩
  · intro hk hm
    have hd : idx.delete_branch name now = .error .protectedBranch := by
      unfold Index.delete_branch
      rw [if_neg (by simp [hk]), if_pos hm]
    exact ⟨hd, by simp only [IndexOp.apply, hd]; rfl⟩
  · intro hk hm hc
    have hd : idx.delete_branch name now = .error .activeBranch := by
      unfold Index.delete_branch
      rw [if_neg (by simp [hk]), if_neg hm, if_pos hc]
    exact ⟨hd, by simp only [IndexOp.apply, hd]; rfl⟩
  · intro hk hm hc
    refine ⟨_, delete_branch_ok now hk hm hc, ?_, ?_, rfl⟩
    · exact Dict.lookup_erase_self idx.branches name
    · intro other ho
      exact Dict.lookup_erase_ne idx.branches name other ho

/-- C9 witness: a two-branch index; deleting the missing branch and the
feature branch behave as specified. -/
theorem claim_C9_witness :
    let bd : BranchData :=
      { created := "", last_modified := "", parent := none,
        current_commit := none, commits := [], metadata := [] }
    let idx : Index :=
      { version := "1.0", created := "", last_modified := "",
        current_branch := "main",
        branches := (Dict.empty.insert "main" bd).insert "feat" bd }
    idx.delete_branch "ghost" t0 = .error (.branchNotFound "ghost") ∧
    idx.delete_branch "main" t0 = .error .protectedBranch ∧
    ∃ idx', idx.delete_branch "feat" t0 = .ok idx' ∧
      idx'.branches.lookup "feat" = none := by
  intro bd idx
  refine ⟨((claim_C9 idx "ghost" t0).1 (by rfl)).1,
          ((claim_C9 idx "main" t0).2.1 (by rfl) rfl).1, ?_⟩
  obtain ⟨idx', h1, h2, _, _⟩ :=
    (claim_C9 idx "feat" t0).2.2.2 (by rfl) (by decide) (by decide)
  exact ⟨idx', h1, h2⟩

set_option maxHeartbeats 1000000 in
/-- C8: for every branch in every Index state reachable by any sequence
of Index operations (create_branch, delete_branch, set_current_branch,
add_commit) from the default document, the branch's head commit id,
when non-null, is the last element of that branch's commit-id list. -/
theorem claim_C8 {idx : Index} (h : ReachableIndex idx) : headIsLast idx := by
  induction h with
  | init now =>
    intro name bd cid hl hc
    by_cases hn : name = "main"
    · subst hn
      rw [Index.createDefault] at hl
      simp only at hl
      rw [Dict.lookup_insert_self] at hl
      cases hl
      cases hc
    · rw [Index.createDefault] at hl
      simp only at hl
      rw [Dict.lookup_insert_ne _ _ _ _ hn, Dict.lookup_empty] at hl
      cases hl
  | @step op now idx hr ih =>
    cases op with
    | createBranch n f =>
      simp only [IndexOp.apply]
      cases hcr : idx.create_branch n f now with
      | error e => exact ih
      | ok idx' =>
        show headIsLast idx'
        unfold Index.create_branch at hcr
        by_cases hk : idx.branches.hasKey n = true
        · rw [if_pos hk] at hcr; cases hcr
        · rw [if_neg hk] at hcr
          cases hs : idx.branches.lookup f with
          | none => rw [hs] at hcr; cases hcr
          | some source =>
            rw [hs] at hcr
            cases hcr
            intro name bd cid hl hc
            by_cases hn : name = n
            · subst hn
              simp only at hl
              rw [Dict.lookup_insert_self] at hl
              cases hl
              exact ih f source cid hs hc
            · simp only at hl
              rw [Dict.lookup_insert_ne _ _ _ _ hn] at hl
              exact ih name bd cid hl hc
    | deleteBranch n =>
      simp only [IndexOp.apply]
      cases hd : idx.delete_branch n now with
      | error e => exact ih
      | ok idx' =>
        show headIsLast idx'
        unfold Index.delete_branch at hd
        by_cases h1 : ¬ idx.branches.hasKey n = true
        · rw [if_pos h1] at hd; cases hd
        · rw [if_neg h1] at hd
          by_cases h2 : n = "main"
          · rw [if_pos h2] at hd; cases hd
          · rw [if_neg h2] at hd
            by_cases h3 : n = idx.current_branch
            · rw [if_pos h3] at hd; cases hd
            · rw [if_neg h3] at hd
              cases hd
              intro name bd cid hl hc
              by_cases hn : name = n
              · subst hn
                simp only at hl
                rw [Dict.lookup_erase_self] at hl
                cases hl
              · simp only at hl
                rw [Dict.lookup_erase_ne _ _ _ hn] at hl
                exact ih name bd cid hl hc
    | setCurrentBranch n =>
      simp only [IndexOp.apply]
      cases hs : idx.set_current_branch n now with
      | error e => exact ih
      | ok idx' =>
        show headIsLast idx'
        unfold Index.set_current_branch at hs
        by_cases hk : idx.branches.hasKey n = true
        · rw [if_pos hk] at hs
          cases hs
          intro name bd cid hl hc
          exact ih name bd cid hl hc
        · rw [if_neg hk] at hs; cases hs
    | addCommit b cid' =>
      simp only [IndexOp.apply]
      cases ha : idx.add_commit b cid' now with
      | error e => exact ih
      | ok idx' =>
        show headIsLast idx'
        unfold Index.add_commit at ha
        cases hb : idx.branches.lookup b with
        | none => rw [hb] at ha; cases ha
        | some bd0 =>
          rw [hb] at ha
          cases ha
          intro name bd cid hl hc
          by_cases hn : name = b
          · subst hn
            simp only at hl
            rw [Dict.lookup_insert_self] at hl
            cases hl
            cases hc
            exact List.getLast?_concat _
          · simp only at hl
            rw [Dict.lookup_insert_ne _ _ _ _ hn] at hl
            exact ih name bd cid hl hc

/-- C8 witness: the invariant holds at the freshly created default
Index, which is reachable in zero steps. -/
theorem claim_C8_witness : headIsLast (Index.createDefault t0) :=
  claim_C8 (ReachableIndex.init t0)

lemma addCommitsOn_lookup_other (src name : String) (h : name ≠ src) :
    ∀ (later : List (String × DateTime)) (idx : Index),
      (addCommitsOn src later idx).branches.lookup name =
        idx.branches.lookup name := by
  intro later
  induction later with
  | nil => intro idx; rfl
  | cons step rest ih =>
    intro idx
    obtain ⟨cid, now⟩ := step
    rw [addCommitsOn, ih]
    simp only [IndexOp.apply]
    cases ha : idx.add_commit src cid now with
    | error e => rfl
    | ok idx' =>
      show idx'.branches.lookup name = idx.branches.lookup name
      unfold Index.add_commit at ha
      cases hb : idx.branches.lookup src with
      | none => rw [hb] at ha; cases ha
      | some bd0 =>
        rw [hb] at ha
        cases ha
        exact Dict.lookup_insert_ne _ _ _ _ h

/-- C7: for every branch name not already present in the Index,
createBranch(name, src) followed by setCurrentBranch(name) makes the
current branch equal name and getCommits(name) equal to the source
branch's commit list at creation time, and this list stays equal to
that creation-time value no matter which commits are later added to the
source branch (the list is copied by value, not shared). -/
theorem claim_C7 (idx : Index) (name src : String) (srcData : BranchData)
    (now1 now2 : DateTime)
    (hnew : idx.branches.hasKey name = false)
    (hsrc : idx.branches.lookup src = some srcData) :
    ∃ idx1 idx2,
      idx.create_branch name src now1 = .ok idx1 ∧
      idx1.set_current_branch name now2 = .ok idx2 ∧
      idx2.get_current_branch = name ∧
      idx2.get_commits name = srcData.commits ∧
      ∀ later : List (String × DateTime),
        (addCommitsOn src later idx2).get_commits name = srcData.commits := by
  have hns : name ≠ src := by
    intro hh
    rw [hh] at hnew
    rw [Dict.hasKey_of_lookup_eq_some hsrc] at hnew
    cases hnew
  have hcr : idx.create_branch name src now1 =
      .ok { idx with
              branches := idx.branches.insert name
                { created := now1.isoformat
                  last_modified := now1.isoformat
                  parent := some src
                  current_commit := srcData.current_commit
                  commits := srcData.commits
                  metadata := [] }
              last_modified := now1.isoformat } := by
    unfold Index.create_branch
    rw [if_neg (by simp [hnew]), hsrc]
  set newBD : BranchData :=
    { created := now1.isoformat
      last_modified := now1.isoformat
      parent := some src
      current_commit := srcData.current_commit
      commits := srcData.commits
      metadata := [] } with hbd
  set idx1 : Index :=
    { idx with branches := idx.branches.insert name newBD
               last_modified := now1.isoformat } with hidx1
  have hlook : idx1.branches.lookup name = some newBD := by
    rw [hidx1]
    exact Dict.lookup_insert_self idx.branches name newBD
  have hsc : idx1.set_current_branch name now2 =
      .ok { idx1 with current_branch := name
                      last_modified := now2.isoformat } := by
    unfold Index.set_current_branch
    rw [if_pos (Dict.hasKey_of_lookup_eq_some hlook)]
  refine ⟨idx1, _, hcr, hsc, rfl, ?_, ?_⟩
  · unfold Index.get_commits
    simp only
    rw [hlook]
  · intro later
    unfold Index.get_commits
    have : (addCommitsOn src later
        { idx1 with current_branch := name
                    last_modified := now2.isoformat }).branches.lookup name =
        some newBD := by
      rw [addCommitsOn_lookup_other src name hns later]
      exact hlook
    rw [this]

/-- C7 witness: creating "feat" from "main" at a concrete index and then
adding two commits to "main" leaves "feat" with the creation-time
list. -/
theorem claim_C7_witness :
    let bd : BranchData :=
      { created := "", last_modified := "", parent := none,
        current_commit := some "c1", commits := ["c0", "c1"], metadata := [] }
    let idx : Index :=
      { version := "1.0", created := "", last_modified := "",
        current_branch := "main",
        branches := Dict.empty.insert "main" bd }
    ∃ idx1 idx2,
      idx.create_branch "feat" "main" t0 = .ok idx1 ∧
      idx1.set_current_branch "feat" t0 = .ok idx2 ∧
      idx2.get_current_branch = "feat" ∧
      idx2.get_commits "feat" = ["c0", "c1"] ∧
      (addCommitsOn "main" [("c2", t0), ("c3", t0)] idx2).get_commits "feat" =
        ["c0", "c1"] := by
  intro bd idx
  obtain ⟨idx1, idx2, h1, h2, h3, h4, h5⟩ :=
    claim_C7 idx "feat" "main" bd t0 t0 (by rfl) (by rfl)
  exact ⟨idx1, idx2, h1, h2, h3, h4, h5 [("c2", t0), ("c3", t0)]⟩

/-- C3 counterexample: the offline stub (MockProvider) — explicitly
included in the claim's quantification — does NOT return the zero
SquashResult on an empty commit list: it returns its fixed canned
result, whose architecture_summary is "Built auth service" rather than
"No commits in branch" and whose decisions list is non-empty. -/
theorem claim_C3_counterexample :
    MockProvider.squash_branch_history ("b") [] none t0 =
      .ok ⟨["Use JWT", "Redis cache"], [], ["Keep it simple"],
           "Built auth service", 0, 0, "b", t0⟩ ∧
    "Built auth service" ≠ "No commits in branch" ∧
    (["Use JWT", "Redis cache"] : List String) ≠ [] := by
  exact ⟨rfl, by decide, by decide⟩

/-- C3 amended: on an empty commit list, the network-backed providers
(shown here for AnthropicProvider, over an arbitrary backend — the
openai, ollama and deepseek implementations carry the identical guard)
return the zero-valued SquashResult with architecture_summary
"No commits in branch" without consulting the backend (the result is
the same for every backend, including one that always raises); the
offline stub instead returns its fixed canned result — its numeric
fields are zero on empty input, but its decisions and insights are
non-empty and its summary is "Built auth service" — likewise without
any backend call. -/
theorem claim_C3 :
    (∀ (backend : Backend) (b : String) (ctx : Option Json) (now : DateTime),
      AnthropicProvider.squash_branch_history backend b [] ctx now =
        .ok ⟨[], [], [], "No commits in branch", 0, 0, b, now⟩) ∧
    (∀ (b : String) (ctx : Option Json) (now : DateTime),
      MockProvider.squash_branch_history b [] ctx now =
        .ok ⟨["Use JWT", "Redis cache"], [], ["Keep it simple"],
             "Built auth service", 0, 0, b, now⟩) := by
  constructor
  · intro backend b ctx now
    rfl
  · intro b ctx now
    rfl

/-- C2 counterexample: with the packaged AnthropicProvider and a
backend whose call raises, `GitContext.commit` on a state with one OTA
log PROPAGATES the backend exception instead of completing with the
stub's output: `AnthropicProvider._call` logs and re-raises, and the
call site in `GitContext.commit` has no handler. -/
theorem claim_C2_counterexample :
    GitContext.commit
      { index := Index.createDefault t0, docs := [], texts := [] }
      envEmpty (AnthropicProvider.provider failingBackend) ("add auth")
      (some [{ id := "o1", thought := "t", action := "a", result := "r",
               timestamp := t0, files_affected := [], metadata := [] }])
      none t0 ("id1") =
    .error (.llmApiError "connection error") := by
  rfl

/-- C2 amended: the catch-at-call-site-and-fall-back-to-the-stub
behavior holds in the legacy `LLMAnalyzer` backend callers
(`_call_anthropic`, `_call_openai`, `_call_ollama`, `_call_deepseek` in
`llm_integration.py`): when every backend call raises, each returns
exactly the deterministic mock output, so the surrounding operation
completes with the stub's result.  In the packaged core
(`GitContext` with the `llm/` providers) the exception propagates
instead (see the counterexample). -/
theorem claim_C2 (backend : Backend) (prompt : String)
    (hfail : ∀ p s, ∃ err, backend p s = Except.error err) :
    LLMAnalyzer.call_anthropic backend prompt = LLMAnalyzer.mock_call prompt ∧
    LLMAnalyzer.call_openai backend prompt = LLMAnalyzer.mock_call prompt ∧
    LLMAnalyzer.call_ollama backend prompt = LLMAnalyzer.mock_call prompt ∧
    LLMAnalyzer.call_deepseek backend prompt = LLMAnalyzer.mock_call prompt := by
  refine ⟨?_, ?_, ?_, ?_⟩
  · obtain ⟨err, he⟩ := hfail prompt (some analystSystem)
    unfold LLMAnalyzer.call_anthropic
    rw [he]
  · obtain ⟨err, he⟩ := hfail prompt (some analystSystem)
    unfold LLMAnalyzer.call_openai
    rw [he]
  · obtain ⟨err, he⟩ :=
      hfail ("System: " ++ analystSystem ++ "\n\nUser: " ++ prompt) none
    unfold LLMAnalyzer.call_ollama
    rw [he]
  · obtain ⟨err, he⟩ := hfail prompt (some analystSystem)
    unfold LLMAnalyzer.call_deepseek
    rw [he]

/-- C2 witness: the always-failing backend at a concrete prompt. -/
theorem claim_C2_witness :
    (∀ p s, ∃ err, failingBackend p s = Except.error err) ∧
    LLMAnalyzer.call_anthropic failingBackend ("analyze this") =
      LLMAnalyzer.mock_call ("analyze this") := by
  have hfail : ∀ p s, ∃ err, failingBackend p s = Except.error err :=
    fun p s => ⟨.llmApiError "connection error", rfl⟩
  exact ⟨hfail, (claim_C2 failingBackend ("analyze this") hfail).1⟩

/-- C4 (code bug): saving a Commit that carries OTA logs fails.
`OTALog.to_dict` is pydantic's `model_dump()`, which leaves the log's
timestamp as a raw datetime object inside the dict, so the commit
document is not JSON-serializable and `_save_commit`'s `json.dump`
raises `TypeError` — `load(save(commit))` cannot reproduce the commit
because `save` never completes.  (`OTALog.from_dict` itself expects a
string timestamp, and `ContextCommit.to_dict` renders its own timestamp
with `isoformat`, confirming the serialize-to-string intent.)  For a
commit with no OTA logs the round-trip does hold field-for-field,
including the nested Alternative list and the ISO-8601 timestamp. -/
theorem claim_C4 :
    commitWithOta.ota_logs.length = 1 ∧
    Json.serializable (ContextCommit.to_dict commitWithOta) = false ∧
    stEmpty.saveCommit commitWithOta "main" = .error .serializationTypeError ∧
    Json.serializable (ContextCommit.to_dict commitNoOta) = true ∧
    (do
      let st' ← stEmpty.saveCommit commitNoOta "main"
      st'.loadCommit "c8" "main") = Except.ok (some commitNoOta) := by
  refine ⟨rfl, rfl, rfl, rfl, rfl⟩

/-- C6 counterexample: the latest commit's files_snapshot omits `p` and
`p` is present in the tracked-file list, yet `status()` reports
`uncommitted_changes = false`: the path is missing from the working
tree, so `get_files_snapshot` skips it and the fresh snapshot equals
the stored one. -/
theorem claim_C6_counterexample :
    commitEmptySnap.files_snapshot.lookup "p" = none ∧
    "p" ∈ envTrackedMissing.trackedFiles ∧
    stC6.loadCommit "c0" "main" = .ok (some commitEmptySnap) ∧
    (GitContext.status stC6 envTrackedMissing).map
      (fun r => r.uncommitted_changes) = .ok false := by
  exact ⟨rfl, List.mem_cons_self _ _, rfl, rfl⟩

/-- C6 amended: when the latest commit's files_snapshot omits a path
`p`, `p` is in the tracked-file list AND `p` currently exists on disk
(so the fresh snapshot fingerprints it), `status()` reports
`uncommitted_changes = true`.  If the tracked path is absent from the
working tree, the fresh snapshot omits it too and the flag can stay
false (see the counterexample). -/
theorem claim_C6 (st : GCState) (env : Env) (bd : BranchData) (cid : String)
    (c : ContextCommit) (p content : String)
    (hbd : st.index.branches.lookup st.index.current_branch = some bd)
    (hcid : bd.current_commit = some cid)
    (hload : st.loadCommit cid st.index.current_branch = .ok (some c))
    (homit : c.files_snapshot.lookup p = none)
    (htrack : p ∈ env.trackedFiles)
    (hdisk : env.disk.lookup p = some content) :
    ∃ r, GitContext.status st env = .ok r ∧ r.uncommitted_changes = true := by
  have hsnap : (getFilesSnapshot env).lookup p = some (env.hashFn content) :=
    snapshot_lookup_of_tracked env p content htrack hdisk
  have hne : (getFilesSnapshot env).pyEq c.files_snapshot = false :=
    pyEq_false_of_extra_key hsnap homit
  unfold GitContext.status
  simp only [Index.get_branch, Index.get_current_branch]
  rw [hbd]
  dsimp only
  rw [hcid]
  dsimp only
  rw [hload]
  refine ⟨_, rfl, ?_⟩
  show (!(getFilesSnapshot env).pyEq c.files_snapshot) = true
  rw [hne]
  rfl

/-- C6 witness: the concrete state with `p` tracked and on disk. -/
theorem claim_C6_witness :
    ∃ r, GitContext.status stC6 envTrackedPresent = .ok r ∧
      r.uncommitted_changes = true :=
  claim_C6 stC6 envTrackedPresent _ "c0" commitEmptySnap "p" "body"
    rfl rfl rfl rfl (List.mem_cons_self _ _) rfl

/-- C5 counterexample: the scenario as written cannot run — its second
step `branch("feature/x")` raises `BranchError` because
`GitContext.branch` rejects any name containing a path separator, so
the sequence never reaches the merge. -/
theorem claim_C5_counterexample :
    (do
      let st0 ← GitContext.init t0 "id0"
      GitContext.branch st0 "feature/x" none t0) =
    Except.error (.invalidBranchName "feature/x") := by
  rfl

lemma exceptBindOk {ε α β : Type} (a : α) (f : α → Except ε β) :
    (Except.ok a : Except ε α) >>= f = f a := rfl

lemma c5_step0 : GitContext.init t0 "id0" = .ok c5St0 := rfl

lemma c5_step1 : GitContext.branch c5St0 "featurex" none t0 = .ok c5St1 := rfl

lemma c5_step2 : GitContext.checkout c5St1 "featurex" t0 = .ok c5St2 := rfl

lemma c5_step3 :
    GitContext.commit c5St2 envEmpty MockProvider "add X" none
      (some ["Use X"]) t0 "id1" = .ok ("id1", c5St3) := rfl

lemma c5_step4 : GitContext.checkout c5St3 "main" t0 = .ok c5St4 := rfl

lemma c5_step5 :
    GitContext.merge c5St4 envEmpty MockProvider "featurex" true t0 "id2" =
      .ok c5MergeRes := rfl

lemma scenarioC5_eval : scenarioC5 = .ok c5MergeRes := by
  simp only [scenarioC5, c5_step0, exceptBindOk, c5_step1, c5_step2, c5_step3,
             c5_step4, c5_step5]

set_option maxHeartbeats 1000000 in
/-- C5 amended: with a valid (separator-free) branch name the sequence
runs to completion and produces exactly one new commit on main — main
goes from ["id0"] to ["id0", "id2"] — but that commit's decisions equal
the stub provider's fixed squash output ["Use JWT", "Redis cache"], NOT
the branch's ["Use X"] (the stub ignores the input commits' decisions);
afterwards no branch named "featurex" exists. -/
theorem claim_C5 :
    scenarioC5 = .ok c5MergeRes ∧
    c5MergeRes.2.index.get_commits "main" = ["id0", "id2"] ∧
    c5MergeRes.2.index.branches.hasKey "featurex" = false ∧
    (c5MergeRes.2.loadCommit "id2" "main").map
      (Option.map (fun c => c.decisions)) = .ok (some ["Use JWT", "Redis cache"]) ∧
    (["Use JWT", "Redis cache"] : List String) ≠ ["Use X"] := by
  exact ⟨scenarioC5_eval, rfl, rfl, rfl, by decide⟩

/-! C1 support lemmas: explicit descriptions of the archive and
apply-squash steps. -/

lemma ota_maps_nil {commits : List ContextCommit}
    (hser : Json.serializableList (commits.map ContextCommit.to_dict) = true) :
    (commits.map (fun c => c.ota_logs.map OTALog.to_dict)).flatten = [] := by
  induction commits with
  | nil => rfl
  | cons c cs ih =>
    rw [List.map_cons, Json.serializableList, Bool.and_eq_true] at hser
    rw [List.map_cons, List.flatten_cons, ota_nil_of_to_dict_serializable hser.1]
    simpa using ih hser.2

lemma serializable_jstr (s : String) : (Json.jstr s).serializable = true := rfl

lemma serializable_jobj (l : List (String × Json)) :
    (Json.jobj l).serializable = Json.serializableFields l := rfl

lemma serializable_jarr (l : List Json) :
    (Json.jarr l).serializable = Json.serializableList l := rfl

lemma serializableFields_cons (kv : String × Json) (kvs : List (String × Json)) :
    Json.serializableFields (kv :: kvs) =
      (kv.2.serializable && Json.serializableFields kvs) := rfl

lemma serializableFields_nil : Json.serializableFields [] = true := rfl

lemma archive_doc_serializable {commits : List ContextCommit}
    (branch : String) (result : SquashResult) (now : DateTime)
    (hser : Json.serializableList (commits.map ContextCommit.to_dict) = true) :
    (GitContext.archiveBranchDoc branch commits result now).serializable = true := by
  simp only [GitContext.archiveBranchDoc, serializable_jobj, serializableFields_cons,
             serializableFields_nil, serializable_jstr, serializable_jarr, hser,
             serializable_squashResult_to_dict result, Bool.and_true, Bool.true_and]

lemma archiveBranch_ok (st : GCState) (branch : String)
    (commits : List ContextCommit) (result : SquashResult) (now : DateTime)
    (hser : Json.serializableList (commits.map ContextCommit.to_dict) = true) :
    GitContext.archiveBranch st branch commits result now = .ok
      { index := st.index
        docs := putDoc st.docs
          ["archive", branch ++ "_" ++ now.compactStamp, "branch.json"]
          (GitContext.archiveBranchDoc branch commits result now)
        texts := putDoc st.texts
          ["archive", branch ++ "_" ++ now.compactStamp, "summary.md"]
          result.to_markdown } := by
  unfold GitContext.archiveBranch
  simp only [saveJson_ok_of_serializable st _
               (archive_doc_serializable branch result now hser),
             exceptBindOk, ota_maps_nil hser, List.isEmpty_nil, if_true]
  rfl

lemma serializable_squashCommit (env : Env) (result : SquashResult)
    (now : DateTime) (freshId : String) (parent : Option String) :
    ((GitContext.squashCommitOf env result now freshId parent).to_dict).serializable = true := by
  apply serializable_commit_to_dict_of
  · rfl
  · simp [GitContext.squashCommitOf, Json.serializableFields, Json.serializable,
          serializableList_map_jstr]

lemma applySquashResult_ok (st : GCState) (env : Env) (result : SquashResult)
    (now : DateTime) (freshId : String) (bdA : BranchData)
    (hcur : st.index.branches.lookup st.index.current_branch = some bdA) :
    GitContext.applySquashResult st env result now freshId = .ok
      { index := { st.index with
                     branches := st.index.branches.insert st.index.current_branch
                       { bdA with commits := bdA.commits ++ [freshId]
                                  current_commit := some freshId
                                  last_modified := now.isoformat }
                     last_modified := now.isoformat }
        docs := putDoc st.docs (commitDocPath st.index.current_branch freshId)
          (GitContext.squashCommitOf env result now freshId bdA.current_commit).to_dict
        texts := st.texts } := by
  have hcc : st.index.get_current_commit st.index.current_branch =
      bdA.current_commit := by
    unfold Index.get_current_commit
    rw [hcur]
  unfold GitContext.applySquashResult GCState.saveCommit
  simp only [Index.get_current_branch, hcc]
  rw [saveJson_ok_of_serializable st _
      (serializable_squashCommit env result now freshId bdA.current_commit)]
  simp only [exceptBindOk]
  rw [add_commit_ok freshId now hcur]
  rfl

lemma branch_pre_not_prefix_commitPath (B A id : String) (hBA : B ≠ A) :
    (["contexts", "branches", B]).isPrefixOf (commitDocPath A id) = false := by
  unfold commitDocPath
  by_cases hA : A = "main"
  · rw [if_pos hA]
    have h1 : (("branches" : String) == "main") = false := rfl
    simp [List.isPrefixOf, h1]
  · rw [if_neg hA]
    have hb : (B == A) = false := beq_eq_false_iff_ne.mpr hBA
    simp [List.isPrefixOf, hb]

lemma branch_pre_not_prefix_archive (B dir f : String) :
    (["contexts", "branches", B]).isPrefixOf (["archive", dir, f]) = false := by
  have h1 : (("contexts" : String) == "archive") = false := rfl
  simp [List.isPrefixOf, h1]

lemma archivePath_ne_commitPath (A id dir f : String) :
    (["archive", dir, f] : List String) ≠ commitDocPath A id := by
  unfold commitDocPath
  by_cases hA : A = "main"
  · rw [if_pos hA]
    intro h
    injection h with h1 _
    exact absurd h1 (by decide)
  · rw [if_neg hA]
    intro h
    injection h with h1 _
    exact absurd h1 (by decide)

lemma lookupDoc_def (st : GCState) (path : List String) :
    st.lookupDoc path = alookup st.docs path := rfl

set_option maxHeartbeats 1000000 in
/-- C1: for every repository state with distinct branches A (current)
and B, and B not the protected "main" branch (merging "main" outward
aborts at the final delete — see the counterexample), squash-merging B
terminates with: B absent from the Index's branch map, A's commit list
extended by exactly the one new commit id, A's head on that new commit,
the new commit's stored document carrying metadata.source_branch = B
and metadata.original_commits = (pre-merge commit count of B), and an
archive document containing one record per original commit of B.
Hypotheses: the current branch exists; every commit id of B resolves to
a stored, parseable document (hload and hlen say none were skipped);
the current-context snapshot builds; the provider returns a result
carrying B's name and commit count (both in-repo providers do); the
archived commit records are JSON-serializable (true of every document
the engine itself can have written). -/
theorem claim_C1
    (st : GCState) (env : Env) (prov : LLMProvider) (B : String)
    (now : DateTime) (freshId : String) (bdA bd : BranchData)
    (commits : List ContextCommit) (ctx : Json) (result : SquashResult)
    (hcur : st.index.branches.lookup st.index.current_branch = some bdA)
    (hB : st.index.branches.lookup B = some bd)
    (hne : B ≠ st.index.current_branch)
    (hmain : B ≠ "main")
    (hload : st.getBranchCommits B = .ok commits)
    (hlen : commits.length = bd.commits.length)
    (hctx : GitContext.getCurrentContext st env = .ok ctx)
    (hsq : prov.squash_branch_history B commits (some ctx) now = .ok result)
    (hbn : result.branch_name = B)
    (hoc : result.original_commits = commits.length)
    (hser : Json.serializableList (commits.map ContextCommit.to_dict) = true) :
    ∃ st', GitContext.merge st env prov B true now freshId = .ok (result, st') ∧
      st'.index.branches.lookup B = none ∧
      st'.index.current_branch = st.index.current_branch ∧
      st'.index.get_commits st.index.current_branch = bdA.commits ++ [freshId] ∧
      st'.index.get_current_commit st.index.current_branch = some freshId ∧
      (∃ doc, st'.lookupDoc (commitDocPath st.index.current_branch freshId) =
          some doc ∧
        (doc.getKey "metadata").bind (fun m => m.getKey "source_branch") =
          some (.jstr B) ∧
        (doc.getKey "metadata").bind (fun m => m.getKey "original_commits") =
          some (.jnum (bd.commits.length : Int))) ∧
      (∃ recs,
        (st'.lookupDoc
            ["archive", B ++ "_" ++ now.compactStamp, "branch.json"]).bind
          (fun a => a.getKey "commits") = some (.jarr recs) ∧
        recs.length = bd.commits.length) := by
  have harch := archiveBranch_ok st B commits result now hser
  have happly := applySquashResult_ok
    { index := st.index
      docs := putDoc st.docs
        ["archive", B ++ "_" ++ now.compactStamp, "branch.json"]
        (GitContext.archiveBranchDoc B commits result now)
      texts := putDoc st.texts
        ["archive", B ++ "_" ++ now.compactStamp, "summary.md"]
        result.to_markdown }
    env result now freshId bdA hcur
  dsimp only at happly
  have hkB : (st.index.branches.insert st.index.current_branch
      { bdA with commits := bdA.commits ++ [freshId]
                 current_commit := some freshId
                 last_modified := now.isoformat }).lookup B = some bd := by
    rw [Dict.lookup_insert_ne _ _ _ _ hne]
    exact hB
  have hdel := @delete_branch_ok
    { st.index with
        branches := st.index.branches.insert st.index.current_branch
          { bdA with commits := bdA.commits ++ [freshId]
                     current_commit := some freshId
                     last_modified := now.isoformat }
        last_modified := now.isoformat }
    B now (Dict.hasKey_of_lookup_eq_some hkB) hmain hne
  dsimp only at hdel
  refine ⟨GCState.deleteUnder
    { index :=
        { version := st.index.version
          created := st.index.created
          last_modified := now.isoformat
          current_branch := st.index.current_branch
          branches := (st.index.branches.insert st.index.current_branch
            { created := bdA.created
              last_modified := now.isoformat
              parent := bdA.parent
              current_commit := some freshId
              commits := bdA.commits ++ [freshId]
              metadata := bdA.metadata }).erase B }
      docs := putDoc
        (putDoc st.docs
          ["archive", B ++ "_" ++ now.compactStamp, "branch.json"]
          (GitContext.archiveBranchDoc B commits result now))
        (commitDocPath st.index.current_branch freshId)
        (GitContext.squashCommitOf env result now freshId
          bdA.current_commit).to_dict
      texts := putDoc st.texts
        ["archive", B ++ "_" ++ now.compactStamp, "summary.md"]
        result.to_markdown }
    ["contexts", "branches", B], ?_, ?_, ?_, ?_, ?_, ?_, ?_⟩
  · unfold GitContext.merge
    simp only [Index.get_current_branch]
    rw [if_neg hne]
    unfold Index.get_branch
    rw [hB]
    dsimp only
    rw [hload]
    simp only [exceptBindOk, if_true]
    rw [hctx]
    simp only [exceptBindOk]
    rw [hsq]
    simp only [exceptBindOk]
    rw [harch]
    simp only [exceptBindOk]
    rw [happly]
    simp only [exceptBindOk]
    rw [hdel]
    simp only [exceptBindOk]
    rfl
  · exact Dict.lookup_erase_self _ B
  · rfl
  · unfold GCState.deleteUnder
    dsimp only
    unfold Index.get_commits
    dsimp only
    rw [Dict.lookup_erase_ne _ _ _ (fun hh => hne hh.symm),
        Dict.lookup_insert_self]
  · unfold GCState.deleteUnder
    dsimp only
    unfold Index.get_current_commit
    dsimp only
    rw [Dict.lookup_erase_ne _ _ _ (fun hh => hne hh.symm),
        Dict.lookup_insert_self]
  · refine ⟨(GitContext.squashCommitOf env result now freshId
        bdA.current_commit).to_dict, ?_, ?_, ?_⟩
    · rw [lookupDoc_deleteUnder
          (branch_pre_not_prefix_commitPath B st.index.current_branch freshId hne)]
      rw [lookupDoc_def]
      dsimp only
      exact alookup_put_self _ _ _
    · show some (Json.jstr result.branch_name) = some (Json.jstr B)
      rw [hbn]
    · show some (Json.jnum (result.original_commits : Int)) =
        some (Json.jnum (bd.commits.length : Int))
      rw [hoc, hlen]
  · refine ⟨commits.map ContextCommit.to_dict, ?_, ?_⟩
    · rw [lookupDoc_deleteUnder
          (branch_pre_not_prefix_archive B (B ++ "_" ++ now.compactStamp)
            "branch.json")]
      rw [lookupDoc_def]
      dsimp only
      rw [show putDoc (putDoc st.docs
            ["archive", B ++ "_" ++ now.compactStamp, "branch.json"]
            (GitContext.archiveBranchDoc B commits result now))
            (commitDocPath st.index.current_branch freshId)
            (GitContext.squashCommitOf env result now freshId
              bdA.current_commit).to_dict =
          aput (putDoc st.docs
            ["archive", B ++ "_" ++ now.compactStamp, "branch.json"]
            (GitContext.archiveBranchDoc B commits result now))
            (commitDocPath st.index.current_branch freshId)
            (GitContext.squashCommitOf env result now freshId
              bdA.current_commit).to_dict from rfl]
      rw [alookup_put_ne _ _ _ _
          (archivePath_ne_commitPath st.index.current_branch freshId
            (B ++ "_" ++ now.compactStamp) "branch.json")]
      rw [show alookup (putDoc st.docs
            ["archive", B ++ "_" ++ now.compactStamp, "branch.json"]
            (GitContext.archiveBranchDoc B commits result now))
            ["archive", B ++ "_" ++ now.compactStamp, "branch.json"] =
          some (GitContext.archiveBranchDoc B commits result now) from
          alookup_put_self _ _ _]
      rfl
    · rw [List.length_map]
      exact hlen

/-- C1 counterexample: with distinct branches A = "feat" (current) and
B = "main", merge(B, squash=true) does NOT terminate with B removed:
`IndexManager.delete_branch` refuses to delete the protected "main"
branch, so the merge raises after the squash commit was already
applied, and "main" stays in the Index. -/
theorem claim_C1_counterexample :
    GitContext.merge stC1x envEmpty MockProvider "main" true t0 "idZ" =
      .error .protectedBranch ∧
    stC1x.index.branches.hasKey "main" = true ∧
    stC1x.index.current_branch = "feat" ∧
    "main" ≠ stC1x.index.current_branch := by
  exact ⟨rfl, rfl, rfl, by decide⟩

/-- C1 witness: squash-merging "feat" (two commits) into "main" under
the stub provider, at the concrete state. -/
theorem claim_C1_witness :
    ∃ st', GitContext.merge stW envEmpty MockProvider "feat" true t0 "i2" =
        .ok (resultW, st') ∧
      st'.index.branches.lookup "feat" = none ∧
      st'.index.current_branch = "main" ∧
      st'.index.get_commits "main" = ["i0", "i2"] ∧
      st'.index.get_current_commit "main" = some "i2" ∧
      (∃ doc, st'.lookupDoc (commitDocPath "main" "i2") = some doc ∧
        (doc.getKey "metadata").bind (fun m => m.getKey "source_branch") =
          some (.jstr "feat") ∧
        (doc.getKey "metadata").bind (fun m => m.getKey "original_commits") =
          some (.jnum 2)) ∧
      (∃ recs,
        (st'.lookupDoc
            ["archive", "feat" ++ "_" ++ t0.compactStamp, "branch.json"]).bind
          (fun a => a.getKey "commits") = some (.jarr recs) ∧
        recs.length = 2) := by
  exact claim_C1 stW envEmpty MockProvider "feat" t0 "i2" bdMainW bdFeatW
    commitsW ctxW resultW rfl rfl (by decide) (by decide) rfl rfl rfl rfl rfl
    rfl rfl

end GitContextSpec
